import Mathlib

/-!
Verification development for `backend/scripts/import-futures.py`: a shallow
embedding of the script's pure extraction pipeline (section splitting, summary
row matching, record normalization, aggregation, and ledger item construction),
together with theorems settling the specification claims about it.

Modelling conventions:
* Python strings are modelled as `List Char`; all text handled by the importer
  is ASCII, so character classes (`\s`, `\d`, `\w`, …) are modelled over their
  ASCII subsets.
* Python exceptions (`KeyError` from the month table, `ValueError` from
  `float`) are modelled by `Option`: `none` is an uncaught exception that
  aborts the surrounding computation.
* Python `float` values produced by `float(...)` on the captured decimal
  strings are modelled as exact rationals (`Rat`); every numeric literal a
  claim compares against is exactly representable, so no rounding is modelled.
* The external collaborators (pdfplumber text extraction, DynamoDB writes,
  uuid/timestamp generation) are modelled as inputs: a document is its
  extracted text, and `make_item` receives the generated identity and
  timestamp as parameters.
-/

namespace ImportFutures

/-- ASCII whitespace (space, tab, LF, CR, VT, FF): models Python's whitespace
set for `str.strip`, `str.split` and `re`'s `\s` on the ASCII inputs this
importer handles. -/
def isSpaceC (c : Char) : Bool :=
  c.toNat = 32 || c.toNat = 9 || c.toNat = 10 || c.toNat = 13 ||
    c.toNat = 11 || c.toNat = 12

/-- Non-whitespace. -/
def notSpaceC (c : Char) : Bool := !isSpaceC c

/-- `\d` (ASCII): `'0'..'9'`. -/
def isDigitC (c : Char) : Bool := 48 ≤ c.toNat && c.toNat ≤ 57

/-- `[A-Z]`. -/
def isUpperC (c : Char) : Bool := 65 ≤ c.toNat && c.toNat ≤ 90

/-- `[a-z]`. -/
def isLowerC (c : Char) : Bool := 97 ≤ c.toNat && c.toNat ≤ 122

/-- `\w` (ASCII): letters, digits, underscore (code 95). -/
def isWordC (c : Char) : Bool := isDigitC c || isUpperC c || isLowerC c || c.toNat = 95

/-- `[\d-]` (dash = code 45): the class of the discarded expiry-date token. -/
def isExpiryC (c : Char) : Bool := isDigitC c || c.toNat = 45

/-- `[-\d.]` (dot = code 46): the class of the GROSS_PL capture. -/
def isGrossC (c : Char) : Bool := isDigitC c || c.toNat = 45 || c.toNat = 46

/-- Python `str.rstrip()`-style removal of trailing whitespace. -/
def stripEnd : List Char → List Char
  | [] => []
  | c :: cs =>
    match stripEnd cs with
    | [] => if isSpaceC c then [] else [c]
    | r => c :: r

/-- Python `line.strip()`: remove leading and trailing whitespace. -/
def pyStrip (cs : List Char) : List Char := stripEnd (cs.dropWhile isSpaceC)

/-- Worker for `pyLines`; `acc` holds the current (reversed) line. -/
def pyLinesAux : List Char → List Char → List (List Char)
  | acc, [] => if acc.isEmpty then [] else [acc.reverse]
  | acc, '\r' :: '\n' :: cs => acc.reverse :: pyLinesAux [] cs
  | acc, c :: cs =>
    if c == '\r' || c == '\n' || c == '\x0b' || c == '\x0c' || c == '\x1c' ||
        c == '\x1d' || c == '\x1e' || c == '\x85' || c == '\u2028' || c == '\u2029' then
      acc.reverse :: pyLinesAux [] cs
    else
      pyLinesAux (c :: acc) cs

/-- Python `str.splitlines()`. -/
def pyLines (cs : List Char) : List (List Char) := pyLinesAux [] cs

/-- `int(s)` on a string of ASCII digits. -/
def natOfDigits (ds : List Char) : Nat := ds.foldl (fun a c => a * 10 + (c.toNat - 48)) 0

/-- Python `int(s)` for nonnegative inputs: fails (`ValueError`) unless `s` is a
nonempty digit string (signs/whitespace never occur in the captures this
models). -/
def pyIntNat (s : List Char) : Option Nat :=
  if !s.isEmpty && s.all isDigitC then some (natOfDigits s) else none

/-- The ASCII digit character for `n < 10`. -/
def digitChar (n : Nat) : Char := Char.ofNat (48 + n)

/-- Decimal digit characters of `n`, most significant first; `fuel` bounds the
recursion depth (any `fuel ≥ n` is enough) so the recursion is structural and
kernel-reducible. -/
def pyIntStrAux : Nat → Nat → List Char
  | _, 0 => []
  | 0, _ => []
  | fuel + 1, n => pyIntStrAux fuel (n / 10) ++ [digitChar (n % 10)]

/-- Python `str(n)` for a nonnegative integer. -/
def pyIntStr (n : Nat) : List Char :=
  if n = 0 then ['0'] else pyIntStrAux n n

/-- Python `s[-n:]`: the last `n` characters (all of `s` when it is shorter). -/
def takeLast (n : Nat) (l : List Char) : List Char := l.drop (l.length - n)

/-- Python `s[a:b]` for nonnegative indices. -/
def listSlice (l : List Char) (a b : Nat) : List Char := (l.drop a).take (b - a)

/-- Whether `needle` occurs in `hay` starting at or after the current point;
returns the absolute index, counting from `i`. -/
def strFindAux (needle : List Char) : List Char → Nat → Option Nat
  | [], i => if needle.isEmpty then some i else none
  | c :: t, i =>
    if needle.isPrefixOf (c :: t) then some i else strFindAux needle t (i + 1)

/-- Python `hay.find(needle)`, with `none` for "not found" (-1). -/
def strFind (hay needle : List Char) : Option Nat := strFindAux needle hay 0

/-- Worker for `tokensOf`; `fuel` bounds the recursion depth (any
`fuel ≥ cs.length` is enough) so the recursion is structural and
kernel-reducible. -/
def tokensOfAux : Nat → List Char → List (List Char)
  | _, [] => []
  | 0, _ => []
  | fuel + 1, c :: cs =>
    if isSpaceC c then tokensOfAux fuel cs
    else (c :: cs.takeWhile notSpaceC) :: tokensOfAux fuel (cs.dropWhile notSpaceC)

/-- Python `s.split()`: maximal runs of non-whitespace characters. -/
def tokensOf (cs : List Char) : List (List Char) := tokensOfAux cs.length cs

/-- "The head of this list, if any, fails `p`": the maximality condition for a
run of `p`-characters ending here. -/
def headNo (p : Char → Bool) : List Char → Prop
  | [] => True
  | c :: _ => p c = false

/-- The seven capture groups of `SUMMARY_RE`. -/
structure RowCaptures where
  date : List Char
  qtyLong : List Char
  qtyShort : List Char
  ticker : List Char
  year : List Char
  month : List Char
  grossPL : List Char
deriving DecidableEq

/-- A maximal nonempty run of characters satisfying `p` (regex `C+` for a
character class `C`), returning the run and the remainder. -/
def plusRun (p : Char → Bool) (cs : List Char) : Option (List Char × List Char) :=
  if cs.takeWhile p = [] then none else some (cs.takeWhile p, cs.dropWhile p)

/-- Regex `\s+`: at least one whitespace character, consumed maximally. -/
def skipSpaces1 (cs : List Char) : Option (List Char) :=
  if cs.takeWhile isSpaceC = [] then none else some (cs.dropWhile isSpaceC)

/-- A single required character (a regex literal). -/
def expectChar (a : Char) : List Char → Option (List Char)
  | c :: cs => if c = a then some cs else none
  | [] => none

/-- Regex `\d{n}`: exactly `n` digits. -/
def takeDigitsExact (n : Nat) (cs : List Char) : Option (List Char × List Char) :=
  if (cs.take n).length = n ∧ (cs.take n).all isDigitC = true then
    some (cs.take n, cs.drop n)
  else none

/-- A sequence of required characters (a regex literal such as `US`). -/
def expectLit : List Char → List Char → Option (List Char)
  | [], cs => some cs
  | a :: as, cs => (expectChar a cs).bind (expectLit as)

/-- Regex `(\d{4}-\d{2}-\d{2})`: the DATE capture, returned with the rest. -/
def matchDate (cs : List Char) : Option (List Char × List Char) := do
  let p1 ← takeDigitsExact 4 cs
  let r1 ← expectChar '-' p1.2
  let p2 ← takeDigitsExact 2 r1
  let r2 ← expectChar '-' p2.2
  let p3 ← takeDigitsExact 2 r2
  some (p1.1 ++ '-' :: p2.1 ++ '-' :: p3.1, p3.2)

/-- Regex `\s+C+` for a character class `C`. -/
def spacedRun (p : Char → Bool) (cs : List Char) : Option (List Char × List Char) :=
  (skipSpaces1 cs).bind (plusRun p)

/-- Regex `\s+lit` for a literal string. -/
def spacedLit (lit : List Char) (cs : List Char) : Option (List Char) :=
  (skipSpaces1 cs).bind (expectLit lit)

/-- Regex `\s+\d{4}`. -/
def spacedDigits4 (cs : List Char) : Option (List Char × List Char) :=
  (skipSpaces1 cs).bind (takeDigitsExact 4)

/-- `SUMMARY_RE.match(line)`: the anchored regex
`^(\d{4}-\d{2}-\d{2})\s+US\s+(\d+)\s+(\d+)\s+([A-Z]+)\s+(\d{4})\s+(\d+)\s+\w+\s+[\d-]+\s+([-\d.]+)\s+USD`.
Each quantifier here is consumed greedily with no backtracking; this is
equivalent to the regex because every pair of adjacent character classes in
the pattern is disjoint (a digit/letter/`[-\d.]` character is never
whitespace and vice versa), so a failed continuation can never be repaired
by giving back characters. -/
def matchSummary (cs : List Char) : Option RowCaptures := do
  let d ← matchDate cs
  let r1 ← spacedLit ['U', 'S'] d.2
  let q1 ← spacedRun isDigitC r1
  let q2 ← spacedRun isDigitC q1.2
  let tk ← spacedRun isUpperC q2.2
  let yr ← spacedDigits4 tk.2
  let mo ← spacedRun isDigitC yr.2
  let ex ← spacedRun isWordC mo.2
  let ed ← spacedRun isExpiryC ex.2
  let gp ← spacedRun isGrossC ed.2
  let _ ← spacedLit ['U', 'S', 'D'] gp.2
  some ⟨d.1, q1.1, q2.1, tk.1, yr.1, mo.1, gp.1⟩

/-- Token shape: DATE `YYYY-MM-DD`. -/
def isDateTok (t : List Char) : Bool :=
  match t with
  | [a, b, c, d, x, e, f, y, g, h] =>
    x = '-' && y = '-' && [a, b, c, d, e, f, g, h].all isDigitC
  | _ => false

/-- Token shape: a nonempty unsigned-integer token (`\d+`). -/
def isNatTok (t : List Char) : Bool := !t.isEmpty && t.all isDigitC

/-- Token shape: a nonempty all-uppercase ticker (`[A-Z]+`). -/
def isTickerTok (t : List Char) : Bool := !t.isEmpty && t.all isUpperC

/-- Token shape: exactly four digits (`\d{4}`). -/
def isYearTok (t : List Char) : Bool := t.length = 4 && t.all isDigitC

/-- Token shape: a nonempty word (`\w+`). -/
def isWordTok (t : List Char) : Bool := !t.isEmpty && t.all isWordC

/-- Token shape: a nonempty digits-and-dashes token (`[\d-]+`). -/
def isExpiryTok (t : List Char) : Bool := !t.isEmpty && t.all isExpiryC

/-- Token shape: a nonempty token over digits, dashes and dots (`[-\d.]+`). -/
def isGrossTok (t : List Char) : Bool := !t.isEmpty && t.all isGrossC

/-- `MONTH_NAMES`: the fixed 12-entry table of month abbreviations. -/
def MONTH_NAMES : List (Nat × String) :=
  [(1, "Jan"), (2, "Feb"), (3, "Mar"), (4, "Apr"), (5, "May"), (6, "Jun"),
   (7, "Jul"), (8, "Aug"), (9, "Sep"), (10, "Oct"), (11, "Nov"), (12, "Dec")]

/-- `fmt_contract_month(year, month)`:
`f"{MONTH_NAMES[int(month)]}{str(int(year))[-2:]}"`.  A month with no table
entry raises `KeyError` (modelled as `none`). -/
def fmt_contract_month (year month : List Char) : Option (List Char) :=
  (pyIntNat month).bind fun m =>
  (pyIntNat year).bind fun y =>
  (MONTH_NAMES.lookup m).map fun nm => nm.data ++ takeLast 2 (pyIntStr y)

/-- Magnitude part of Python `float(s)`: `digits [. digits]` with at least one
digit in total, valued `ipart.fpart` as an exact rational (built with `mkRat`
so that it is kernel-reducible). -/
def pyFloatMag (s : List Char) : Option Rat :=
  match s.dropWhile isDigitC with
  | [] => if (s.takeWhile isDigitC).isEmpty then none else some (mkRat (natOfDigits s) 1)
  | '.' :: fp =>
    if fp.all isDigitC && !((s.takeWhile isDigitC).isEmpty && fp.isEmpty) then
      some (mkRat (natOfDigits (s.takeWhile isDigitC) * 10 ^ fp.length + natOfDigits fp)
        (10 ^ fp.length))
    else none
  | _ => none

/-- Python `float(s)` restricted to the forms that can be captured by
`[-\d.]+` (no exponents, no `inf`/`nan`, no internal whitespace arise there);
`none` is a `ValueError`.  Values are exact rationals. -/
def pyFloat (s : List Char) : Option Rat :=
  match s with
  | '-' :: rest => (pyFloatMag rest).map fun q => mkRat (-q.num) q.den
  | rest => pyFloatMag rest

/-- The canonical output record of the pipeline. -/
structure TransactionRecord where
  tradeDate : List Char
  ticker : List Char
  contractMonth : List Char
  qty : Nat
  grossPL : Rat
deriving DecidableEq

/-- Normalization of one matched row: the record built inside `parse_summary`'s
loop (`dict(tradeDate=…, ticker=…, contractMonth=fmt_contract_month(year,
month), qty=int(qty_long), grossPL=float(gross_pl))`).  Any exception from
`fmt_contract_month`, `int` or `float` aborts (`none`). -/
def normalize (c : RowCaptures) : Option TransactionRecord :=
  (fmt_contract_month c.year c.month).bind fun cm =>
  (pyIntNat c.qtyLong).bind fun q =>
  (pyFloat c.grossPL).map fun g =>
  { tradeDate := c.date, ticker := c.ticker, contractMonth := cm, qty := q, grossPL := g }

/-- The loop body of `parse_summary` over the section's lines: unmatched lines
are skipped, matched lines are normalized and appended; an exception during
normalization aborts the whole call, returning no records. -/
def parseLines : List (List Char) → Option (List TransactionRecord)
  | [] => some []
  | line :: rest =>
    match matchSummary (pyStrip line) with
    | none => parseLines rest
    | some caps =>
      match normalize caps with
      | none => none
      | some r => (parseLines rest).map (r :: ·)

/-- `parse_summary(section_text)`. -/
def parse_summary (section_text : List Char) : Option (List TransactionRecord) :=
  parseLines (pyLines section_text)

/-- `SECTION_HEADERS`, in source order. -/
def SECTION_HEADERS : List String :=
  ["Monthly Trade Confirmations", "Trade Confirmation Summary",
   "Purchase and Sale Summary", "Purchase and Sale", "Open Positions",
   "Journal Entries"]

/-- The `positions` dict of `split_sections`: each recognized header paired with
the offset of its first occurrence, in `SECTION_HEADERS` (= insertion) order,
headers that do not occur excluded. -/
def headerPositions (full_text : List Char) : List (String × Nat) :=
  SECTION_HEADERS.filterMap fun h => (strFind full_text h.data).map fun i => (h, i)

/-- Comparison used by `sorted(positions.items(), key=lambda x: x[1])`. -/
def posLe (a b : String × Nat) : Prop := a.2 ≤ b.2

instance : DecidableRel posLe := fun a b => inferInstanceAs (Decidable (a.2 ≤ b.2))

instance : IsTotal (String × Nat) posLe := ⟨fun a b => Nat.le_total a.2 b.2⟩

instance : IsTrans (String × Nat) posLe := ⟨fun _ _ _ => Nat.le_trans⟩

/-- The `end` offset used for the section at the head of the sorted list: the
next section's start, or the end of the text. -/
def nextEnd (full_text : List Char) : List (String × Nat) → Nat
  | [] => full_text.length
  | (_, p) :: _ => p

/-- The loop of `split_sections`: walk the position-sorted headers, assigning
each the slice from just past its header literal up to the next start. -/
def buildSections (full_text : List Char) : List (String × Nat) → List (String × List Char)
  | [] => []
  | (n, s) :: rest =>
    (n, listSlice full_text (s + n.length) (nextEnd full_text rest)) :: buildSections full_text rest

/-- `split_sections(full_text)`: association list playing the role of the
returned dict (its keys are distinct, see `buildSections_keys`).
`List.insertionSort` inserts earlier elements before position-ties exactly as
Python's stable `sorted` keeps them. -/
def split_sections (full_text : List Char) : List (String × List Char) :=
  buildSections full_text (List.insertionSort posLe (headerPositions full_text))

/-- `sections.get(name, "")`. -/
def getSection (full_text : List Char) (name : String) : List Char :=
  ((split_sections full_text).lookup name).getD []

/-- The header whose section feeds the row parser. -/
def pssHeader : String := "Purchase and Sale Summary"

/-- `parse_pdf(filepath)` from the point where the extracted text is in hand
(text extraction itself is the external collaborator):
`parse_summary(split_sections(full_text).get("Purchase and Sale Summary", ""))`. -/
def parse_pdf_text (full_text : List Char) : Option (List TransactionRecord) :=
  parse_summary (getSection full_text pssHeader)

/-- The aggregation loop of `main`: `all_records.extend(parse_pdf(path))` per
document; an exception escaping `parse_pdf` aborts the run, losing the
aggregate built so far. -/
def runGo : List (List Char) → List TransactionRecord → Option (List TransactionRecord)
  | [], acc => some acc
  | t :: ts, acc =>
    match parse_pdf_text t with
    | none => none
    | some rs => runGo ts (acc ++ rs)

/-- The whole multi-document pipeline: documents are their extracted texts, in
input order. -/
def run_pipeline (texts : List (List Char)) : Option (List TransactionRecord) :=
  runGo texts []

/-- Refinement reference for the aggregation claim, following the spec's words:
"the aggregate output is the concatenation of each document's records in
document order" (still aborting as a whole if any document's parse aborts). -/
def docConcatSpec : List (List Char) → Option (List TransactionRecord)
  | [] => some []
  | t :: ts =>
    match parse_pdf_text t, docConcatSpec ts with
    | some rs, some rest => some (rs ++ rest)
    | _, _ => none

/-- The key order of `sorted(all_records, key=lambda x: (x["tradeDate"], x["ticker"]))`. -/
def recLe (a b : TransactionRecord) : Prop :=
  String.mk a.tradeDate < String.mk b.tradeDate ∨
    (String.mk a.tradeDate = String.mk b.tradeDate ∧ String.mk a.ticker ≤ String.mk b.ticker)

instance : DecidableRel recLe := fun _a _b =>
  inferInstanceAs (Decidable (_ ∨ (_ ∧ _)))

/-- The presentation-only sort applied when printing the combined table. -/
def presentationSort (rs : List TransactionRecord) : List TransactionRecord :=
  List.insertionSort recLe rs

/-- One DynamoDB item as built by `make_item` (the `{"S": …}`/`{"N": …}` type
wrappers are dropped; every attribute value is a string). -/
structure LedgerItem where
  userId : List Char
  assetId : List Char
  txId : List Char
  assetType : List Char
  gsi1pk : List Char
  gsi1sk : List Char
  type : List Char
  ticker : List Char
  contractMonth : List Char
  tradeDate : List Char
  qty : List Char
  grossPL : List Char
  notes : List Char
  createdAt : List Char
deriving DecidableEq

/-- Rendering of the float `grossPL` for the ledger item.  Python renders via
`str(float)`; no claim constrains this field, so the exact rendering is a
placeholder mapping each rational to a decimal-or-fraction string. -/
def ratStr (q : Rat) : List Char :=
  (if q < 0 then ['-'] else []) ++ pyIntStr q.num.natAbs ++
    (if q.den = 1 then [] else '/' :: pyIntStr q.den)

/-- `make_item(record, user_id)`.  `tx_id` (the `uuid.uuid4()` generated once
per call and reused for `assetId`, `txId` and `gsi1sk`) and `now` (the UTC
timestamp) are the effects of the external collaborators, passed as inputs. -/
def make_item (record : TransactionRecord) (user_id tx_id now : List Char) : LedgerItem :=
  { userId := user_id
    assetId := tx_id
    txId := tx_id
    assetType := "FUTURES_TX".data
    gsi1pk := user_id
    gsi1sk := "FUTURES_TX#".data ++ record.tradeDate ++ '#' :: tx_id
    type := "SUMMARY".data
    ticker := record.ticker
    contractMonth := record.contractMonth
    tradeDate := record.tradeDate
    qty := pyIntStr record.qty
    grossPL := ratStr record.grossPL
    notes := []
    createdAt := now }

/-! ### Concrete sample documents used by counterexamples and witnesses -/

/-- The well-formed summary row the spec uses as its worked example. -/
def sampleRow : List Char :=
  "2023-05-10 US 2 2 ZB 2023 5 CBOT 2023-06-16 125.50 USD Notes here".data

/-- The record that row normalizes to (`float("125.50") = 251/2` exactly). -/
def sampleRecord : TransactionRecord :=
  ⟨"2023-05-10".data, "ZB".data, "May23".data, 2, mkRat 251 2⟩

/-- A document whose "Purchase and Sale" section precedes the
"Purchase and Sale Summary" section holding the sample row. -/
def docBoth : List Char :=
  ("Purchase and Sale\nPurchase and Sale Summary\n" ++
    "2023-05-10 US 2 2 ZB 2023 5 CBOT 2023-06-16 125.50 USD Notes here").data

/-- A document with only the "Purchase and Sale Summary" header and the
sample row after it. -/
def docPssOnly : List Char :=
  ("Purchase and Sale Summary\n" ++
    "2023-05-10 US 2 2 ZB 2023 5 CBOT 2023-06-16 125.50 USD Notes here").data

/-- `docPssOnly` followed by an "Open Positions" section (first occurrence at
offset 92). -/
def docPssOpen : List Char :=
  ("Purchase and Sale Summary\n" ++
    "2023-05-10 US 2 2 ZB 2023 5 CBOT 2023-06-16 125.50 USD Notes here" ++
    "\nOpen Positions\nnone").data

/-- Like `docBoth` but the row's MONTH token is 13 (no table entry). -/
def docMonth13 : List Char :=
  ("Purchase and Sale\nPurchase and Sale Summary\n" ++
    "2023-05-10 US 2 2 ZB 2023 13 CBOT 2023-06-16 125.50 USD x").data

/-- The month-13 row and its captures. -/
def rowMonth13 : List Char :=
  "2023-05-10 US 2 2 ZB 2023 13 CBOT 2023-06-16 125.50 USD x".data

/-- The captures of `rowMonth13`. -/
def capsMonth13 : RowCaptures :=
  ⟨"2023-05-10".data, "2".data, "2".data, "ZB".data, "2023".data, "13".data,
    "125.50".data⟩

/-- "Purchase and Sale" strictly before "Purchase and Sale Summary" (offset
20), "Open Positions" last (offset 50). -/
def docSandwichA : List Char :=
  "Purchase and Sale\nx\nPurchase and Sale Summary\nrow\nOpen Positions\nzz".data

/-- As `docSandwichA` but with no header after "Purchase and Sale Summary"
(whose first occurrence is at offset 20; the text is 54 characters). -/
def docSandwichB : List Char :=
  "Purchase and Sale\nx\nPurchase and Sale Summary\nrow tail".data

/-- A row whose GROSS_PL token `1.2.3` is not an optionally-signed decimal
(yet lies inside `[-\d.]+`). -/
def rowBadGross : List Char :=
  "2023-05-10 US 2 2 ZB 2023 5 CBOT 2023-06-16 1.2.3 USD x".data

/-- A row with a three-digit MONTH token. -/
def rowMonth123 : List Char :=
  "2023-05-10 US 2 2 ZB 2023 123 CBOT 2023-06-16 125.50 USD x".data

/-- The sample row with QTY_SHORT changed from 2 to 7. -/
def sampleRowShort7 : List Char :=
  "2023-05-10 US 2 7 ZB 2023 5 CBOT 2023-06-16 125.50 USD Notes here".data

/-- The captures of `sampleRow`. -/
def sampleCaps : RowCaptures :=
  ⟨"2023-05-10".data, "2".data, "2".data, "ZB".data, "2023".data, "5".data,
    "125.50".data⟩

/-- The captures of `sampleRowShort7`. -/
def sampleCapsShort7 : RowCaptures :=
  ⟨"2023-05-10".data, "2".data, "7".data, "ZB".data, "2023".data, "5".data,
    "125.50".data⟩

/-! ### Character-class facts -/

lemma not_space_of_digit {c : Char} (h : isDigitC c = true) : isSpaceC c = false := by
  simp only [isDigitC, Bool.and_eq_true, decide_eq_true_eq] at h
  simp only [isSpaceC, Bool.or_eq_false_iff, decide_eq_false_iff_not]
  omega

lemma not_space_of_upper {c : Char} (h : isUpperC c = true) : isSpaceC c = false := by
  simp only [isUpperC, Bool.and_eq_true, decide_eq_true_eq] at h
  simp only [isSpaceC, Bool.or_eq_false_iff, decide_eq_false_iff_not]
  omega

lemma not_space_of_word {c : Char} (h : isWordC c = true) : isSpaceC c = false := by
  simp only [isWordC, isDigitC, isUpperC, isLowerC, Bool.or_eq_true, Bool.and_eq_true,
    decide_eq_true_eq] at h
  simp only [isSpaceC, Bool.or_eq_false_iff, decide_eq_false_iff_not]
  omega

lemma not_space_of_expiry {c : Char} (h : isExpiryC c = true) : isSpaceC c = false := by
  simp only [isExpiryC, isDigitC, Bool.or_eq_true, Bool.and_eq_true, decide_eq_true_eq] at h
  simp only [isSpaceC, Bool.or_eq_false_iff, decide_eq_false_iff_not]
  omega

lemma not_space_of_gross {c : Char} (h : isGrossC c = true) : isSpaceC c = false := by
  simp only [isGrossC, isDigitC, Bool.or_eq_true, Bool.and_eq_true, decide_eq_true_eq] at h
  simp only [isSpaceC, Bool.or_eq_false_iff, decide_eq_false_iff_not]
  omega

lemma not_digit_of_space {c : Char} (h : isSpaceC c = true) : isDigitC c = false := by
  simp only [isSpaceC, Bool.or_eq_true, decide_eq_true_eq] at h
  simp only [isDigitC, Bool.and_eq_false_iff, decide_eq_false_iff_not]
  omega

lemma not_upper_of_space {c : Char} (h : isSpaceC c = true) : isUpperC c = false := by
  simp only [isSpaceC, Bool.or_eq_true, decide_eq_true_eq] at h
  simp only [isUpperC, Bool.and_eq_false_iff, decide_eq_false_iff_not]
  omega

lemma not_word_of_space {c : Char} (h : isSpaceC c = true) : isWordC c = false := by
  simp only [isSpaceC, Bool.or_eq_true, decide_eq_true_eq] at h
  simp only [isWordC, isDigitC, isUpperC, isLowerC, Bool.or_eq_false_iff,
    Bool.and_eq_false_iff, decide_eq_false_iff_not]
  omega

lemma not_expiry_of_space {c : Char} (h : isSpaceC c = true) : isExpiryC c = false := by
  simp only [isSpaceC, Bool.or_eq_true, decide_eq_true_eq] at h
  simp only [isExpiryC, isDigitC, Bool.or_eq_false_iff, Bool.and_eq_false_iff,
    decide_eq_false_iff_not]
  omega

lemma not_gross_of_space {c : Char} (h : isSpaceC c = true) : isGrossC c = false := by
  simp only [isSpaceC, Bool.or_eq_true, decide_eq_true_eq] at h
  simp only [isGrossC, isDigitC, Bool.or_eq_false_iff, Bool.and_eq_false_iff,
    decide_eq_false_iff_not]
  omega

lemma notSpaceC_of_space {c : Char} (h : isSpaceC c = true) : notSpaceC c = false := by
  simp [notSpaceC, h]

lemma isSpaceC_of_notSpace {c : Char} (h : notSpaceC c = false) : isSpaceC c = true := by
  simpa [notSpaceC] using h

/-! ### `takeWhile`/`dropWhile` facts -/

lemma takeWhile_all_append {p : Char → Bool} {t r : List Char}
    (ht : t.all p = true) (hr : headNo p r) : (t ++ r).takeWhile p = t := by
  induction t with
  | nil =>
    cases r with
    | nil => rfl
    | cons c rs => simp only [headNo] at hr; simp [List.takeWhile, hr]
  | cons c ts ih =>
    simp only [List.all_cons, Bool.and_eq_true] at ht
    simp [List.takeWhile, ht.1, ih ht.2]

lemma dropWhile_all_append {p : Char → Bool} {t r : List Char}
    (ht : t.all p = true) (hr : headNo p r) : (t ++ r).dropWhile p = r := by
  induction t with
  | nil =>
    cases r with
    | nil => rfl
    | cons c rs => simp only [headNo] at hr; simp [List.dropWhile, hr]
  | cons c ts ih =>
    simp only [List.all_cons, Bool.and_eq_true] at ht
    simp [List.dropWhile, ht.1, ih ht.2]

lemma all_takeWhile' (p : Char → Bool) (cs : List Char) :
    (cs.takeWhile p).all p = true := by
  induction cs with
  | nil => rfl
  | cons c cs ih =>
    by_cases h : p c = true
    · simp [List.takeWhile, h, ih]
    · simp only [Bool.not_eq_true] at h
      simp [List.takeWhile, h]

lemma headNo_dropWhile (p : Char → Bool) (cs : List Char) :
    headNo p (cs.dropWhile p) := by
  induction cs with
  | nil => trivial
  | cons c cs ih =>
    by_cases h : p c = true
    · simpa [List.dropWhile, h] using ih
    · simp only [Bool.not_eq_true] at h
      simp [List.dropWhile, h, headNo]

/-! ### Forward (inversion) lemmas for the matcher combinators -/

lemma plusRun_eq_some {p : Char → Bool} {cs t r : List Char}
    (h : plusRun p cs = some (t, r)) :
    cs = t ++ r ∧ t ≠ [] ∧ t.all p = true ∧ headNo p r := by
  unfold plusRun at h
  split at h
  · exact absurd h (by simp)
  · rename_i hne
    obtain ⟨ht, hr⟩ : cs.takeWhile p = t ∧ cs.dropWhile p = r := by
      simpa using h
    refine ⟨?_, ?_, ?_, ?_⟩
    · rw [← ht, ← hr, List.takeWhile_append_dropWhile]
    · rw [← ht]; exact hne
    · rw [← ht]; exact all_takeWhile' p cs
    · rw [← hr]; exact headNo_dropWhile p cs

lemma skipSpaces1_eq_some {cs r : List Char} (h : skipSpaces1 cs = some r) :
    ∃ ws, ws ≠ [] ∧ ws.all isSpaceC = true ∧ cs = ws ++ r ∧ headNo isSpaceC r := by
  unfold skipSpaces1 at h
  split at h
  · exact absurd h (by simp)
  · rename_i hne
    have hr : cs.dropWhile isSpaceC = r := by simpa using h
    refine ⟨cs.takeWhile isSpaceC, hne, all_takeWhile' _ cs, ?_, ?_⟩
    · rw [← hr, List.takeWhile_append_dropWhile]
    · rw [← hr]; exact headNo_dropWhile _ cs

lemma expectChar_eq_some {a : Char} {cs r : List Char} (h : expectChar a cs = some r) :
    cs = a :: r := by
  match cs with
  | [] => simp [expectChar] at h
  | c :: cs =>
    by_cases hc : c = a
    · subst hc
      simp only [expectChar, if_true, eq_self_iff_true, Option.some.injEq] at h
      rw [h]
    · simp [expectChar, hc] at h

lemma expectLit_eq_some {lit cs r : List Char} (h : expectLit lit cs = some r) :
    cs = lit ++ r := by
  induction lit generalizing cs with
  | nil =>
    simp only [expectLit] at h
    cases h; rfl
  | cons a as ih =>
    simp only [expectLit, Option.bind_eq_some] at h
    obtain ⟨cs', h1, h2⟩ := h
    rw [expectChar_eq_some h1, ih h2]
    rfl

lemma takeDigitsExact_eq_some {n : Nat} {cs t r : List Char}
    (h : takeDigitsExact n cs = some (t, r)) :
    cs = t ++ r ∧ t.length = n ∧ t.all isDigitC = true := by
  unfold takeDigitsExact at h
  split at h
  · rename_i hcond
    obtain ⟨ht, hr⟩ : cs.take n = t ∧ cs.drop n = r := by simpa using h
    exact ⟨by rw [← ht, ← hr, List.take_append_drop], ht ▸ hcond.1, ht ▸ hcond.2⟩
  · exact absurd h (by simp)

/-! ### Backward (construction) lemmas for the matcher combinators -/

lemma plusRun_append {p : Char → Bool} {t r : List Char}
    (h1 : t ≠ []) (h2 : t.all p = true) (h3 : headNo p r) :
    plusRun p (t ++ r) = some (t, r) := by
  unfold plusRun
  rw [takeWhile_all_append h2 h3, dropWhile_all_append h2 h3]
  simp [h1]

lemma skipSpaces1_append {ws r : List Char}
    (h1 : ws ≠ []) (h2 : ws.all isSpaceC = true) (h3 : headNo isSpaceC r) :
    skipSpaces1 (ws ++ r) = some r := by
  unfold skipSpaces1
  rw [takeWhile_all_append h2 h3, dropWhile_all_append h2 h3]
  simp [h1]

lemma expectChar_cons (a : Char) (r : List Char) : expectChar a (a :: r) = some r := by
  simp [expectChar]

lemma expectLit_append (lit r : List Char) : expectLit lit (lit ++ r) = some r := by
  induction lit with
  | nil => rfl
  | cons a as ih => simp [expectLit, expectChar_cons, ih]

lemma takeDigitsExact_append {n : Nat} {t : List Char} (r : List Char)
    (h1 : t.length = n) (h2 : t.all isDigitC = true) :
    takeDigitsExact n (t ++ r) = some (t, r) := by
  unfold takeDigitsExact
  rw [← h1, List.take_left, List.drop_left]
  simp [h1, h2]

/-! ### `tokensOf` facts -/

lemma length_dropWhile_le' (p : Char → Bool) (cs : List Char) :
    (cs.dropWhile p).length ≤ cs.length := by
  induction cs with
  | nil => simp [List.dropWhile]
  | cons c cs ih =>
    simp only [List.dropWhile]
    split
    · exact Nat.le_succ_of_le ih
    · exact Nat.le_refl _

lemma tokensOfAux_fuel :
    ∀ f g : Nat, ∀ cs : List Char, cs.length ≤ f → cs.length ≤ g →
      tokensOfAux f cs = tokensOfAux g cs := by
  intro f
  induction f with
  | zero =>
    intro g cs hf _
    have : cs = [] := List.eq_nil_of_length_eq_zero (Nat.le_zero.mp hf)
    subst this
    cases g <;> rfl
  | succ f ih =>
    intro g cs hf hg
    cases cs with
    | nil => cases g <;> rfl
    | cons c cs =>
      cases g with
      | zero => simp at hg
      | succ g =>
        simp only [List.length_cons, Nat.succ_le_succ_iff] at hf hg
        simp only [tokensOfAux]
        by_cases hc : isSpaceC c = true
        · rw [if_pos hc, if_pos hc]
          exact ih g cs hf hg
        · rw [if_neg hc, if_neg hc, ih g (cs.dropWhile notSpaceC)
            (Nat.le_trans (length_dropWhile_le' _ cs) hf)
            (Nat.le_trans (length_dropWhile_le' _ cs) hg)]

lemma tokensOf_cons (c : Char) (cs : List Char) :
    tokensOf (c :: cs) = if isSpaceC c then tokensOf cs
      else (c :: cs.takeWhile notSpaceC) :: tokensOf (cs.dropWhile notSpaceC) := by
  unfold tokensOf
  simp only [List.length_cons, tokensOfAux]
  by_cases hc : isSpaceC c = true
  · rw [if_pos hc, if_pos hc]
  · rw [if_neg hc, if_neg hc, tokensOfAux_fuel cs.length (cs.dropWhile notSpaceC).length
      (cs.dropWhile notSpaceC) (length_dropWhile_le' _ cs) (Nat.le_refl _)]

lemma tokensOf_spaces_append {ws r : List Char} (h : ws.all isSpaceC = true) :
    tokensOf (ws ++ r) = tokensOf r := by
  induction ws with
  | nil => rfl
  | cons c ws ih =>
    simp only [List.all_cons, Bool.and_eq_true] at h
    rw [List.cons_append, tokensOf_cons, if_pos h.1, ih h.2]

lemma tokensOf_token_append {t r : List Char}
    (h1 : t ≠ []) (h2 : t.all notSpaceC = true) (h3 : headNo notSpaceC r) :
    tokensOf (t ++ r) = t :: tokensOf r := by
  cases t with
  | nil => exact absurd rfl h1
  | cons c ts =>
    simp only [List.all_cons, Bool.and_eq_true] at h2
    have hc : isSpaceC c = false := by
      have := h2.1; simp only [notSpaceC, Bool.not_eq_true'] at this; exact this
    rw [List.cons_append, tokensOf_cons, if_neg (by simp [hc]),
      takeWhile_all_append h2.2 h3, dropWhile_all_append h2.2 h3]

lemma tokensOf_decomp {cs t : List Char} {ts : List (List Char)}
    (hclean : headNo isSpaceC cs) (h : tokensOf cs = t :: ts) :
    ∃ r, cs = t ++ r ∧ t ≠ [] ∧ t.all notSpaceC = true ∧ headNo notSpaceC r ∧
      tokensOf r = ts := by
  cases cs with
  | nil => simp [tokensOf, tokensOfAux] at h
  | cons c cs =>
    have hc : isSpaceC c = false := hclean
    rw [tokensOf_cons, if_neg (by simp [hc])] at h
    obtain ⟨ht, hts⟩ : c :: cs.takeWhile notSpaceC = t ∧
        tokensOf (cs.dropWhile notSpaceC) = ts := List.cons_eq_cons.mp h
    refine ⟨cs.dropWhile notSpaceC, ?_, ?_, ?_, headNo_dropWhile _ cs, hts⟩
    · rw [← ht]
      simp [List.takeWhile_append_dropWhile]
    · rw [← ht]; simp
    · rw [← ht]
      simp only [List.all_cons, Bool.and_eq_true]
      exact ⟨by simp [notSpaceC, hc], all_takeWhile' _ cs⟩

lemma tokensOf_step {cs t : List Char} {ts : List (List Char)}
    (hclean : headNo isSpaceC cs) (h : tokensOf cs = t :: ts) (hne : ts ≠ []) :
    ∃ ws r, cs = t ++ (ws ++ r) ∧ t ≠ [] ∧ t.all notSpaceC = true ∧
      ws ≠ [] ∧ ws.all isSpaceC = true ∧ headNo isSpaceC r ∧ tokensOf r = ts := by
  obtain ⟨r0, hcs, htne, hall, hhead, hts⟩ := tokensOf_decomp hclean h
  cases r0 with
  | nil => rw [← hts] at hne; simp [tokensOf, tokensOfAux] at hne
  | cons c r0 =>
    have hc : isSpaceC c = true := by
      have : notSpaceC c = false := hhead
      simpa [notSpaceC] using this
    refine ⟨(c :: r0).takeWhile isSpaceC, (c :: r0).dropWhile isSpaceC, ?_, htne, hall,
      ?_, all_takeWhile' _ _, headNo_dropWhile _ _, ?_⟩
    · rw [List.takeWhile_append_dropWhile, hcs]
    · simp [List.takeWhile, hc]
    · rw [← hts, ← tokensOf_spaces_append (all_takeWhile' isSpaceC (c :: r0)),
        List.takeWhile_append_dropWhile]

lemma tokensOf_tok_ws {t ws r : List Char}
    (h1 : t ≠ []) (h2 : t.all notSpaceC = true)
    (h3 : ws ≠ []) (h4 : ws.all isSpaceC = true) :
    tokensOf (t ++ (ws ++ r)) = t :: tokensOf r := by
  have hhead : headNo notSpaceC (ws ++ r) := by
    cases ws with
    | nil => exact absurd rfl h3
    | cons w ws' =>
      simp only [List.all_cons, Bool.and_eq_true] at h4
      show notSpaceC w = false
      simp [notSpaceC, h4.1]
  rw [tokensOf_token_append h1 h2 hhead, tokensOf_spaces_append h4]

lemma tokensOf_usd (tail : List Char) :
    ∃ t10 rest, tokensOf ('U' :: 'S' :: 'D' :: tail) = t10 :: rest ∧
      ['U', 'S', 'D'].isPrefixOf t10 = true := by
  rw [tokensOf_cons, if_neg (by decide)]
  refine ⟨_, _, rfl, ?_⟩
  rw [show List.takeWhile notSpaceC ('S' :: 'D' :: tail)
      = 'S' :: 'D' :: List.takeWhile notSpaceC tail by
    simp [List.takeWhile, show notSpaceC 'S' = true from by decide,
      show notSpaceC 'D' = true from by decide]]
  simp [List.isPrefixOf]

lemma headNo_pyStrip (cs : List Char) : headNo isSpaceC (pyStrip cs) := by
  unfold pyStrip
  have hy := headNo_dropWhile isSpaceC cs
  cases hd : cs.dropWhile isSpaceC with
  | nil => simp [stripEnd, headNo]
  | cons c cs' =>
    rw [hd] at hy
    have hc : isSpaceC c = false := hy
    simp only [stripEnd]
    cases hs : stripEnd cs' with
    | nil => simp [hc, headNo]
    | cons d ds => exact hc

/-! ### Inversion of the composite matcher steps -/

lemma exists_len4 {t : List Char} (h : t.length = 4) : ∃ a b c d, t = [a, b, c, d] := by
  match t with
  | [a, b, c, d] => exact ⟨a, b, c, d, rfl⟩

lemma exists_len2 {t : List Char} (h : t.length = 2) : ∃ a b, t = [a, b] := by
  match t with
  | [a, b] => exact ⟨a, b, rfl⟩

lemma matchDate_eq_some {cs : List Char} {d : List Char × List Char}
    (h : matchDate cs = some d) : cs = d.1 ++ d.2 ∧ isDateTok d.1 = true := by
  simp only [matchDate, Option.bind_eq_bind, Option.bind_eq_some, Option.some.injEq] at h
  obtain ⟨p1, hp1, r1, hr1, p2, hp2, r2, hr2, p3, hp3, heq⟩ := h
  obtain ⟨hcs1, hl1, hd1⟩ := takeDigitsExact_eq_some hp1
  have he1 := expectChar_eq_some hr1
  obtain ⟨hcs2, hl2, hd2⟩ := takeDigitsExact_eq_some hp2
  have he2 := expectChar_eq_some hr2
  obtain ⟨hcs3, hl3, hd3⟩ := takeDigitsExact_eq_some hp3
  obtain ⟨a, b, c, dd, h4⟩ := exists_len4 hl1
  obtain ⟨e, f, h5⟩ := exists_len2 hl2
  obtain ⟨g, hh, h6⟩ := exists_len2 hl3
  subst heq
  constructor
  · show cs = (p1.1 ++ '-' :: p2.1 ++ '-' :: p3.1) ++ p3.2
    rw [hcs1, he1, hcs2, he2, hcs3]
    simp
  · show isDateTok (p1.1 ++ '-' :: p2.1 ++ '-' :: p3.1) = true
    rw [h4] at hd1
    rw [h5] at hd2
    rw [h6] at hd3
    rw [h4, h5, h6]
    simp only [List.all_cons, List.all_nil, Bool.and_eq_true, and_true] at hd1 hd2 hd3
    simp only [List.cons_append, List.nil_append, isDateTok]
    simp [hd1.1, hd1.2.1, hd1.2.2.1, hd1.2.2.2, hd2.1, hd2.2, hd3.1, hd3.2]

lemma spacedRun_eq_some {p : Char → Bool} {cs : List Char} {q : List Char × List Char}
    (h : spacedRun p cs = some q) :
    ∃ ws, ws ≠ [] ∧ ws.all isSpaceC = true ∧ cs = ws ++ (q.1 ++ q.2) ∧
      q.1 ≠ [] ∧ q.1.all p = true ∧ headNo p q.2 := by
  simp only [spacedRun, Option.bind_eq_some] at h
  obtain ⟨r, hr, hq⟩ := h
  obtain ⟨ws, hw1, hw2, hw3, _⟩ := skipSpaces1_eq_some hr
  obtain ⟨hq1, hq2, hq3, hq4⟩ := plusRun_eq_some (t := q.1) (r := q.2) hq
  exact ⟨ws, hw1, hw2, by rw [hw3, hq1], hq2, hq3, hq4⟩

lemma spacedLit_eq_some {lit cs r : List Char} (h : spacedLit lit cs = some r) :
    ∃ ws, ws ≠ [] ∧ ws.all isSpaceC = true ∧ cs = ws ++ (lit ++ r) := by
  simp only [spacedLit, Option.bind_eq_some] at h
  obtain ⟨r0, hr0, hlit⟩ := h
  obtain ⟨ws, hw1, hw2, hw3, _⟩ := skipSpaces1_eq_some hr0
  exact ⟨ws, hw1, hw2, by rw [hw3, expectLit_eq_some hlit]⟩

lemma spacedDigits4_eq_some {cs : List Char} {q : List Char × List Char}
    (h : spacedDigits4 cs = some q) :
    ∃ ws, ws ≠ [] ∧ ws.all isSpaceC = true ∧ cs = ws ++ (q.1 ++ q.2) ∧
      q.1.length = 4 ∧ q.1.all isDigitC = true := by
  simp only [spacedDigits4, Option.bind_eq_some] at h
  obtain ⟨r, hr, hq⟩ := h
  obtain ⟨ws, hw1, hw2, hw3, _⟩ := skipSpaces1_eq_some hr
  obtain ⟨hq1, hq2, hq3⟩ := takeDigitsExact_eq_some (t := q.1) (r := q.2) hq
  exact ⟨ws, hw1, hw2, by rw [hw3, hq1], hq2, hq3⟩

lemma dateTok_notSpace {t : List Char} (h : isDateTok t = true) :
    t.all notSpaceC = true := by
  match t with
  | [a, b, c, d, x, e, f, y, g, hh] =>
    simp only [isDateTok, Bool.and_eq_true, List.all_cons, List.all_nil,
      decide_eq_true_eq, and_true] at h
    obtain ⟨⟨hx, hy⟩, ha, hb, hc, hd, he, hf, hg, hhh⟩ := h
    subst hx; subst hy
    simp only [List.all_cons, List.all_nil, Bool.and_eq_true, and_true]
    refine ⟨?_, ?_, ?_, ?_, by decide, ?_, ?_, by decide, ?_, ?_⟩ <;>
      simp [notSpaceC, not_space_of_digit, *]

lemma all_notSpace_of_all {p : Char → Bool} {t : List Char}
    (hp : ∀ c, p c = true → isSpaceC c = false) (h : t.all p = true) :
    t.all notSpaceC = true := by
  induction t with
  | nil => rfl
  | cons c ts ih =>
    simp only [List.all_cons, Bool.and_eq_true] at h ⊢
    exact ⟨by simp [notSpaceC, hp c h.1], ih h.2⟩

lemma dateTok_ne_nil {t : List Char} (h : isDateTok t = true) : t ≠ [] := by
  match t with
  | [a, b, c, d, x, e, f, y, g, hh] => simp

lemma isEmpty_false_of_ne_nil {t : List Char} (h : t ≠ []) : t.isEmpty = false := by
  cases t with
  | nil => exact absurd rfl h
  | cons c ts => rfl

/-- A successful `SUMMARY_RE` match determines the whitespace-token structure
of the line: eleven leading tokens of the grammar's shapes, and each capture
group is the corresponding whole token. -/
lemma matchSummary_tokens {cs : List Char} {caps : RowCaptures}
    (h : matchSummary cs = some caps) :
    ∃ t0 t2 t3 t4 t5 t6 t7 t8 t9 t10 rest,
      tokensOf cs =
        t0 :: ['U', 'S'] :: t2 :: t3 :: t4 :: t5 :: t6 :: t7 :: t8 :: t9 :: t10 :: rest ∧
      isDateTok t0 = true ∧ isNatTok t2 = true ∧ isNatTok t3 = true ∧
      isTickerTok t4 = true ∧ isYearTok t5 = true ∧ isNatTok t6 = true ∧
      isWordTok t7 = true ∧ isExpiryTok t8 = true ∧ isGrossTok t9 = true ∧
      ['U', 'S', 'D'].isPrefixOf t10 = true ∧
      caps = ⟨t0, t2, t3, t4, t5, t6, t9⟩ := by
  simp only [matchSummary, Option.bind_eq_bind, Option.bind_eq_some, Option.some.injEq] at h
  obtain ⟨d, hd, r1, hr1, q1, hq1, q2, hq2, tk, htk, yr, hyr, mo, hmo, ex, hex,
    ed, hed, gp, hgp, rf, hrf, heq⟩ := h
  obtain ⟨hcs, hdate⟩ := matchDate_eq_some hd
  obtain ⟨w1, hw1ne, hw1sp, hw1⟩ := spacedLit_eq_some hr1
  obtain ⟨w2, hw2ne, hw2sp, hw2, hq1ne, hq1all, _⟩ := spacedRun_eq_some hq1
  obtain ⟨w3, hw3ne, hw3sp, hw3, hq2ne, hq2all, _⟩ := spacedRun_eq_some hq2
  obtain ⟨w4, hw4ne, hw4sp, hw4, htkne, htkall, _⟩ := spacedRun_eq_some htk
  obtain ⟨w5, hw5ne, hw5sp, hw5, hyrlen, hyrall⟩ := spacedDigits4_eq_some hyr
  obtain ⟨w6, hw6ne, hw6sp, hw6, hmone, hmoall, _⟩ := spacedRun_eq_some hmo
  obtain ⟨w7, hw7ne, hw7sp, hw7, hexne, hexall, _⟩ := spacedRun_eq_some hex
  obtain ⟨w8, hw8ne, hw8sp, hw8, hedne, hedall, _⟩ := spacedRun_eq_some hed
  obtain ⟨w9, hw9ne, hw9sp, hw9, hgpne, hgpall, _⟩ := spacedRun_eq_some hgp
  obtain ⟨w10, hw10ne, hw10sp, hw10⟩ := spacedLit_eq_some hrf
  obtain ⟨t10, rest, husd, hpre⟩ := tokensOf_usd rf
  have e1 : tokensOf cs = d.1 :: tokensOf (['U', 'S'] ++ r1) := by
    rw [hcs, hw1]
    exact tokensOf_tok_ws (dateTok_ne_nil hdate) (dateTok_notSpace hdate) hw1ne hw1sp
  have e2 : tokensOf (['U', 'S'] ++ r1) = ['U', 'S'] :: tokensOf (q1.1 ++ q1.2) := by
    rw [hw2]
    exact tokensOf_tok_ws (by simp) (by decide) hw2ne hw2sp
  have e3 : tokensOf (q1.1 ++ q1.2) = q1.1 :: tokensOf (q2.1 ++ q2.2) := by
    rw [hw3]
    exact tokensOf_tok_ws hq1ne (all_notSpace_of_all (fun _ => not_space_of_digit) hq1all)
      hw3ne hw3sp
  have e4 : tokensOf (q2.1 ++ q2.2) = q2.1 :: tokensOf (tk.1 ++ tk.2) := by
    rw [hw4]
    exact tokensOf_tok_ws hq2ne (all_notSpace_of_all (fun _ => not_space_of_digit) hq2all)
      hw4ne hw4sp
  have e5 : tokensOf (tk.1 ++ tk.2) = tk.1 :: tokensOf (yr.1 ++ yr.2) := by
    rw [hw5]
    exact tokensOf_tok_ws htkne (all_notSpace_of_all (fun _ => not_space_of_upper) htkall)
      hw5ne hw5sp
  have hyrne : yr.1 ≠ [] := by
    intro hnil
    rw [hnil] at hyrlen
    simp at hyrlen
  have e6 : tokensOf (yr.1 ++ yr.2) = yr.1 :: tokensOf (mo.1 ++ mo.2) := by
    rw [hw6]
    exact tokensOf_tok_ws hyrne (all_notSpace_of_all (fun _ => not_space_of_digit) hyrall)
      hw6ne hw6sp
  have e7 : tokensOf (mo.1 ++ mo.2) = mo.1 :: tokensOf (ex.1 ++ ex.2) := by
    rw [hw7]
    exact tokensOf_tok_ws hmone (all_notSpace_of_all (fun _ => not_space_of_digit) hmoall)
      hw7ne hw7sp
  have e8 : tokensOf (ex.1 ++ ex.2) = ex.1 :: tokensOf (ed.1 ++ ed.2) := by
    rw [hw8]
    exact tokensOf_tok_ws hexne (all_notSpace_of_all (fun _ => not_space_of_word) hexall)
      hw8ne hw8sp
  have e9 : tokensOf (ed.1 ++ ed.2) = ed.1 :: tokensOf (gp.1 ++ gp.2) := by
    rw [hw9]
    exact tokensOf_tok_ws hedne (all_notSpace_of_all (fun _ => not_space_of_expiry) hedall)
      hw9ne hw9sp
  have e10 : tokensOf (gp.1 ++ gp.2) = gp.1 :: tokensOf ('U' :: 'S' :: 'D' :: rf) := by
    rw [hw10, show ['U', 'S', 'D'] ++ rf = 'U' :: 'S' :: 'D' :: rf from rfl]
    exact tokensOf_tok_ws hgpne (all_notSpace_of_all (fun _ => not_space_of_gross) hgpall)
      hw10ne hw10sp
  refine ⟨d.1, q1.1, q2.1, tk.1, yr.1, mo.1, ex.1, ed.1, gp.1, t10, rest, ?_, hdate,
    ?_, ?_, ?_, ?_, ?_, ?_, ?_, ?_, hpre, heq.symm⟩
  · rw [e1, e2, e3, e4, e5, e6, e7, e8, e9, e10, husd]
  · simp [isNatTok, isEmpty_false_of_ne_nil hq1ne, hq1all]
  · simp [isNatTok, isEmpty_false_of_ne_nil hq2ne, hq2all]
  · simp [isTickerTok, isEmpty_false_of_ne_nil htkne, htkall]
  · simp [isYearTok, hyrlen, hyrall]
  · simp [isNatTok, isEmpty_false_of_ne_nil hmone, hmoall]
  · simp [isWordTok, isEmpty_false_of_ne_nil hexne, hexall]
  · simp [isExpiryTok, isEmpty_false_of_ne_nil hedne, hedall]
  · simp [isGrossTok, isEmpty_false_of_ne_nil hgpne, hgpall]

/-! ### Construction of a match from shaped tokens -/

lemma tok_parts {p : Char → Bool} {t : List Char} (h : (!t.isEmpty && t.all p) = true) :
    t ≠ [] ∧ t.all p = true := by
  simp only [Bool.and_eq_true, Bool.not_eq_true'] at h
  refine ⟨?_, h.2⟩
  intro hn
  rw [hn] at h
  simp at h

lemma dateTok_shape {t : List Char} (h : isDateTok t = true) :
    ∃ a b c d e f g hh, t = [a, b, c, d, '-', e, f, '-', g, hh] ∧
      [a, b, c, d].all isDigitC = true ∧ [e, f].all isDigitC = true ∧
      [g, hh].all isDigitC = true := by
  match t with
  | [a, b, c, d, x, e, f, y, g, hh] =>
    simp only [isDateTok, Bool.and_eq_true, decide_eq_true_eq, List.all_cons,
      List.all_nil, and_true] at h
    obtain ⟨⟨hx, hy⟩, ha, hb, hc, hd, he, hf, hg, hhh⟩ := h
    subst hx; subst hy
    exact ⟨a, b, c, d, e, f, g, hh, rfl, by simp [ha, hb, hc, hd],
      by simp [he, hf], by simp [hg, hhh]⟩

lemma usd_shape {t : List Char} (h : ['U', 'S', 'D'].isPrefixOf t = true) :
    ∃ u, t = 'U' :: 'S' :: 'D' :: u := by
  cases t with
  | nil => simp [List.isPrefixOf] at h
  | cons a t =>
    cases t with
    | nil => simp [List.isPrefixOf] at h
    | cons b t =>
      cases t with
      | nil => simp [List.isPrefixOf] at h
      | cons c u =>
        simp only [List.isPrefixOf, Bool.and_eq_true, beq_iff_eq, and_true] at h
        obtain ⟨ha, hb, hc⟩ := h
        subst ha; subst hb; subst hc
        exact ⟨u, rfl⟩

lemma matchDate_append {t X : List Char} (h : isDateTok t = true) :
    matchDate (t ++ X) = some (t, X) := by
  obtain ⟨a, b, c, d, e, f, g, hh, ht, h1, h2, h3⟩ := dateTok_shape h
  subst ht
  have s1 : takeDigitsExact 4 ([a, b, c, d, '-', e, f, '-', g, hh] ++ X)
      = some ([a, b, c, d], '-' :: ([e, f] ++ '-' :: ([g, hh] ++ X))) :=
    takeDigitsExact_append _ rfl h1
  have s3 : takeDigitsExact 2 ([e, f] ++ '-' :: ([g, hh] ++ X))
      = some ([e, f], '-' :: ([g, hh] ++ X)) :=
    takeDigitsExact_append _ rfl h2
  have s5 : takeDigitsExact 2 ([g, hh] ++ X) = some ([g, hh], X) :=
    takeDigitsExact_append _ rfl h3
  simp only [matchDate, Option.bind_eq_bind, s1, Option.some_bind, expectChar_cons,
    s3, s5]
  simp

lemma spacedRun_append {p : Char → Bool} {ws t r : List Char}
    (hp : ∀ c, p c = true → isSpaceC c = false)
    (hws : ws ≠ []) (hsp : ws.all isSpaceC = true)
    (ht : t ≠ []) (hall : t.all p = true) (hr : headNo p r) :
    spacedRun p (ws ++ (t ++ r)) = some (t, r) := by
  have hhead : headNo isSpaceC (t ++ r) := by
    cases t with
    | nil => exact absurd rfl ht
    | cons c ts =>
      simp only [List.all_cons, Bool.and_eq_true] at hall
      exact hp c hall.1
  simp [spacedRun, skipSpaces1_append hws hsp hhead, plusRun_append ht hall hr]

lemma spacedLit_append {ws lit r : List Char}
    (hws : ws ≠ []) (hsp : ws.all isSpaceC = true)
    (hhead : headNo isSpaceC (lit ++ r)) :
    spacedLit lit (ws ++ (lit ++ r)) = some r := by
  simp [spacedLit, skipSpaces1_append hws hsp hhead, expectLit_append]

lemma spacedDigits4_append {ws t r : List Char}
    (hws : ws ≠ []) (hsp : ws.all isSpaceC = true)
    (hlen : t.length = 4) (hall : t.all isDigitC = true) :
    spacedDigits4 (ws ++ (t ++ r)) = some (t, r) := by
  have hhead : headNo isSpaceC (t ++ r) := by
    cases t with
    | nil => simp at hlen
    | cons c ts =>
      simp only [List.all_cons, Bool.and_eq_true] at hall
      exact not_space_of_digit hall.1
  simp [spacedDigits4, skipSpaces1_append hws hsp hhead, takeDigitsExact_append _ hlen hall]

lemma headNo_of_space_head {p : Char → Bool} {w r : List Char}
    (hp : ∀ c, isSpaceC c = true → p c = false)
    (hw : w ≠ []) (hsp : w.all isSpaceC = true) : headNo p (w ++ r) := by
  cases w with
  | nil => exact absurd rfl hw
  | cons c ws =>
    simp only [List.all_cons, Bool.and_eq_true] at hsp
    exact hp c hsp.1

/-- Conversely, a line (with no leading whitespace) whose tokens have the
grammar's shapes is matched by `SUMMARY_RE`, with each capture the
corresponding token. -/
lemma matchSummary_of_tokens {cs t0 t2 t3 t4 t5 t6 t7 t8 t9 t10 : List Char}
    {rest : List (List Char)}
    (hclean : headNo isSpaceC cs)
    (htok : tokensOf cs =
      t0 :: ['U', 'S'] :: t2 :: t3 :: t4 :: t5 :: t6 :: t7 :: t8 :: t9 :: t10 :: rest)
    (h0 : isDateTok t0 = true) (h2 : isNatTok t2 = true) (h3 : isNatTok t3 = true)
    (h4 : isTickerTok t4 = true) (h5 : isYearTok t5 = true) (h6 : isNatTok t6 = true)
    (h7 : isWordTok t7 = true) (h8 : isExpiryTok t8 = true) (h9 : isGrossTok t9 = true)
    (h10 : ['U', 'S', 'D'].isPrefixOf t10 = true) :
    matchSummary cs = some ⟨t0, t2, t3, t4, t5, t6, t9⟩ := by
  obtain ⟨w1, r1, hcs, _, _, hw1ne, hw1sp, hr1cl, hr1tok⟩ :=
    tokensOf_step hclean htok (by simp)
  obtain ⟨w2, r2, hr1, _, _, hw2ne, hw2sp, hr2cl, hr2tok⟩ :=
    tokensOf_step hr1cl hr1tok (by simp)
  obtain ⟨w3, r3, hr2, _, _, hw3ne, hw3sp, hr3cl, hr3tok⟩ :=
    tokensOf_step hr2cl hr2tok (by simp)
  obtain ⟨w4, r4, hr3, _, _, hw4ne, hw4sp, hr4cl, hr4tok⟩ :=
    tokensOf_step hr3cl hr3tok (by simp)
  obtain ⟨w5, r5, hr4, _, _, hw5ne, hw5sp, hr5cl, hr5tok⟩ :=
    tokensOf_step hr4cl hr4tok (by simp)
  obtain ⟨w6, r6, hr5, _, _, hw6ne, hw6sp, hr6cl, hr6tok⟩ :=
    tokensOf_step hr5cl hr5tok (by simp)
  obtain ⟨w7, r7, hr6, _, _, hw7ne, hw7sp, hr7cl, hr7tok⟩ :=
    tokensOf_step hr6cl hr6tok (by simp)
  obtain ⟨w8, r8, hr7, _, _, hw8ne, hw8sp, hr8cl, hr8tok⟩ :=
    tokensOf_step hr7cl hr7tok (by simp)
  obtain ⟨w9, r9, hr8, _, _, hw9ne, hw9sp, hr9cl, hr9tok⟩ :=
    tokensOf_step hr8cl hr8tok (by simp)
  obtain ⟨w10, r10, hr9, _, _, hw10ne, hw10sp, hr10cl, hr10tok⟩ :=
    tokensOf_step hr9cl hr9tok (by simp)
  obtain ⟨r11, hr10, _, _, _, _⟩ := tokensOf_decomp hr10cl hr10tok
  obtain ⟨u, hu⟩ := usd_shape h10
  obtain ⟨h2ne, h2all⟩ := tok_parts (p := isDigitC) h2
  obtain ⟨h3ne, h3all⟩ := tok_parts (p := isDigitC) h3
  obtain ⟨h4ne, h4all⟩ := tok_parts (p := isUpperC) h4
  obtain ⟨h5len, h5all⟩ : t5.length = 4 ∧ t5.all isDigitC = true := by
    simpa [isYearTok, Bool.and_eq_true] using h5
  obtain ⟨h6ne, h6all⟩ := tok_parts (p := isDigitC) h6
  obtain ⟨h7ne, h7all⟩ := tok_parts (p := isWordC) h7
  obtain ⟨h8ne, h8all⟩ := tok_parts (p := isExpiryC) h8
  obtain ⟨h9ne, h9all⟩ := tok_parts (p := isGrossC) h9
  rw [hu] at hr10
  have s1 : matchDate (t0 ++ (w1 ++ r1)) = some (t0, w1 ++ r1) := matchDate_append h0
  have s2 : spacedLit ['U', 'S'] (w1 ++ r1) = some (w2 ++ r2) := by
    rw [hr1]
    exact spacedLit_append hw1ne hw1sp (by show isSpaceC 'U' = false; decide)
  have s3 : spacedRun isDigitC (w2 ++ r2) = some (t2, w3 ++ r3) := by
    rw [hr2]
    exact spacedRun_append (fun c => not_space_of_digit) hw2ne hw2sp h2ne h2all
      (headNo_of_space_head (fun c => not_digit_of_space) hw3ne hw3sp)
  have s4 : spacedRun isDigitC (w3 ++ r3) = some (t3, w4 ++ r4) := by
    rw [hr3]
    exact spacedRun_append (fun c => not_space_of_digit) hw3ne hw3sp h3ne h3all
      (headNo_of_space_head (fun c => not_digit_of_space) hw4ne hw4sp)
  have s5 : spacedRun isUpperC (w4 ++ r4) = some (t4, w5 ++ r5) := by
    rw [hr4]
    exact spacedRun_append (fun c => not_space_of_upper) hw4ne hw4sp h4ne h4all
      (headNo_of_space_head (fun c => not_upper_of_space) hw5ne hw5sp)
  have s6 : spacedDigits4 (w5 ++ r5) = some (t5, w6 ++ r6) := by
    rw [hr5]
    exact spacedDigits4_append hw5ne hw5sp h5len h5all
  have s7 : spacedRun isDigitC (w6 ++ r6) = some (t6, w7 ++ r7) := by
    rw [hr6]
    exact spacedRun_append (fun c => not_space_of_digit) hw6ne hw6sp h6ne h6all
      (headNo_of_space_head (fun c => not_digit_of_space) hw7ne hw7sp)
  have s8 : spacedRun isWordC (w7 ++ r7) = some (t7, w8 ++ r8) := by
    rw [hr7]
    exact spacedRun_append (fun c => not_space_of_word) hw7ne hw7sp h7ne h7all
      (headNo_of_space_head (fun c => not_word_of_space) hw8ne hw8sp)
  have s9 : spacedRun isExpiryC (w8 ++ r8) = some (t8, w9 ++ r9) := by
    rw [hr8]
    exact spacedRun_append (fun c => not_space_of_expiry) hw8ne hw8sp h8ne h8all
      (headNo_of_space_head (fun c => not_expiry_of_space) hw9ne hw9sp)
  have s10 : spacedRun isGrossC (w9 ++ r9) = some (t9, w10 ++ r10) := by
    rw [hr9]
    exact spacedRun_append (fun c => not_space_of_gross) hw9ne hw9sp h9ne h9all
      (headNo_of_space_head (fun c => not_gross_of_space) hw10ne hw10sp)
  have s11 : spacedLit ['U', 'S', 'D'] (w10 ++ r10) = some (u ++ r11) := by
    rw [hr10]
    exact spacedLit_append hw10ne hw10sp (by show isSpaceC 'U' = false; decide)
  rw [hcs]
  simp only [matchSummary, Option.bind_eq_bind, s1, Option.some_bind, s2, s3, s4, s5,
    s6, s7, s8, s9, s10, s11]

/-! ### `parse_summary` loop facts -/

lemma parseLines_cons_none {a : List Char} (ls : List (List Char))
    (h : matchSummary (pyStrip a) = none) :
    parseLines (a :: ls) = parseLines ls := by
  conv_lhs => unfold parseLines
  rw [h]

lemma parseLines_cons_some {a : List Char} (ls : List (List Char)) {caps : RowCaptures}
    (h : matchSummary (pyStrip a) = some caps) :
    parseLines (a :: ls) = match normalize caps with
      | none => none
      | some r => (parseLines ls).map (fun x => r :: x) := by
  conv_lhs => unfold parseLines
  rw [h]

/-- A line the regex does not match is silently skipped: deleting it from the
line sequence does not change the parse at all. -/
lemma parseLines_skip {line : List Char} (l1 l2 : List (List Char))
    (h : matchSummary (pyStrip line) = none) :
    parseLines (l1 ++ line :: l2) = parseLines (l1 ++ l2) := by
  induction l1 with
  | nil => exact parseLines_cons_none l2 h
  | cons a l1 ih =>
    show parseLines (a :: (l1 ++ line :: l2)) = parseLines (a :: (l1 ++ l2))
    cases ha : matchSummary (pyStrip a) with
    | none => rw [parseLines_cons_none _ ha, parseLines_cons_none _ ha, ih]
    | some caps => rw [parseLines_cons_some _ ha, parseLines_cons_some _ ha, ih]

/-- A matched row whose normalization raises aborts the whole call. -/
lemma parseLines_abort {ls : List (List Char)} {line : List Char} {caps : RowCaptures}
    (hmem : line ∈ ls) (hmatch : matchSummary (pyStrip line) = some caps)
    (hnorm : normalize caps = none) : parseLines ls = none := by
  induction ls with
  | nil => cases hmem
  | cons a ls ih =>
    rcases List.mem_cons.mp hmem with rfl | hmem'
    · rw [parseLines_cons_some _ hmatch, hnorm]
    · cases ha : matchSummary (pyStrip a) with
      | none => rw [parseLines_cons_none _ ha]; exact ih hmem'
      | some caps' =>
        rw [parseLines_cons_some _ ha, ih hmem']
        cases normalize caps' with
        | none => rfl
        | some r => rfl

lemma parseLines_all_unmatched {ls : List (List Char)}
    (h : ∀ l ∈ ls, matchSummary (pyStrip l) = none) : parseLines ls = some [] := by
  induction ls with
  | nil => rfl
  | cons a ls ih =>
    rw [parseLines_cons_none _ (h a (List.mem_cons_self a ls))]
    exact ih fun l hl => h l (List.mem_cons_of_mem a hl)

/-- When exactly one line of the section matches, the parse is that line's
match-then-normalize, yielding a singleton on success. -/
lemma parseLines_of_filter {ls : List (List Char)} {l : List Char}
    (h : ls.filter (fun x => (matchSummary (pyStrip x)).isSome) = [l]) :
    parseLines ls = (matchSummary (pyStrip l)).bind fun caps =>
      (normalize caps).map (fun r => [r]) := by
  induction ls with
  | nil => simp at h
  | cons a ls ih =>
    cases ha : matchSummary (pyStrip a) with
    | none =>
      rw [List.filter_cons_of_neg (by simp [ha])] at h
      rw [parseLines_cons_none _ ha]
      exact ih h
    | some caps =>
      rw [List.filter_cons_of_pos (by simp [ha])] at h
      obtain ⟨rfl, hnil⟩ := List.cons_eq_cons.mp h
      have hrest : parseLines ls = some [] := by
        refine parseLines_all_unmatched fun x hx => ?_
        have := List.filter_eq_nil_iff.mp hnil x hx
        simpa using this
      rw [parseLines_cons_some _ ha, ha, hrest]
      simp only [Option.some_bind]
      cases normalize caps with
      | none => rfl
      | some r => rfl

/-! ### Pipeline facts -/

lemma runGo_cons_none {t : List Char} (ts : List (List Char))
    (acc : List TransactionRecord) (h : parse_pdf_text t = none) :
    runGo (t :: ts) acc = none := by
  conv_lhs => unfold runGo
  rw [h]

lemma runGo_cons_some {t : List Char} {rs : List TransactionRecord}
    (ts : List (List Char)) (acc : List TransactionRecord)
    (h : parse_pdf_text t = some rs) :
    runGo (t :: ts) acc = runGo ts (acc ++ rs) := by
  conv_lhs => unfold runGo
  rw [h]

lemma docConcatSpec_cons_none {t : List Char} (ts : List (List Char))
    (h : parse_pdf_text t = none) : docConcatSpec (t :: ts) = none := by
  conv_lhs => unfold docConcatSpec
  rw [h]

lemma docConcatSpec_cons_some {t : List Char} {rs : List TransactionRecord}
    (ts : List (List Char)) (h : parse_pdf_text t = some rs) :
    docConcatSpec (t :: ts) = match docConcatSpec ts with
      | none => none
      | some rest => some (rs ++ rest) := by
  conv_lhs => unfold docConcatSpec
  rw [h]
  cases docConcatSpec ts with
  | none => rfl
  | some rest => rfl

lemma runGo_eq_concat : ∀ (ts : List (List Char)) (acc : List TransactionRecord),
    runGo ts acc = (docConcatSpec ts).map (fun rs => acc ++ rs) := by
  intro ts
  induction ts with
  | nil => intro acc; simp [runGo, docConcatSpec]
  | cons t ts ih =>
    intro acc
    cases ht : parse_pdf_text t with
    | none => rw [runGo_cons_none ts acc ht, docConcatSpec_cons_none ts ht]; rfl
    | some rs =>
      rw [runGo_cons_some ts acc ht, ih (acc ++ rs), docConcatSpec_cons_some ts ht]
      cases docConcatSpec ts with
      | none => rfl
      | some rest => simp

lemma runGo_none {ts : List (List Char)} {t : List Char}
    (hmem : t ∈ ts) (ht : parse_pdf_text t = none) :
    ∀ acc, runGo ts acc = none := by
  induction ts with
  | nil => cases hmem
  | cons a ts ih =>
    intro acc
    rcases List.mem_cons.mp hmem with rfl | hmem'
    · exact runGo_cons_none ts acc ht
    · cases ha : parse_pdf_text a with
      | none => exact runGo_cons_none ts acc ha
      | some rs => rw [runGo_cons_some ts acc ha]; exact ih hmem' (acc ++ rs)

lemma runGo_drop_empty {t : List Char} (ht : parse_pdf_text t = some [])
    (pre post : List (List Char)) :
    ∀ acc, runGo (pre ++ t :: post) acc = runGo (pre ++ post) acc := by
  induction pre with
  | nil =>
    intro acc
    show runGo (t :: post) acc = runGo post acc
    rw [runGo_cons_some post acc ht, List.append_nil]
  | cons a pre ih =>
    intro acc
    show runGo (a :: (pre ++ t :: post)) acc = runGo (a :: (pre ++ post)) acc
    cases ha : parse_pdf_text a with
    | none => rw [runGo_cons_none _ acc ha, runGo_cons_none _ acc ha]
    | some rs => rw [runGo_cons_some _ acc ha, runGo_cons_some _ acc ha, ih (acc ++ rs)]

/-! ### Section-splitter facts -/

lemma lookup_buildSections (text : List Char) :
    ∀ (l1 : List (String × Nat)) (name : String) (start : Nat) (l2 : List (String × Nat)),
      ((l1 ++ (name, start) :: l2).map Prod.fst).Nodup →
      (buildSections text (l1 ++ (name, start) :: l2)).lookup name
        = some (listSlice text (start + name.length) (nextEnd text l2)) := by
  intro l1
  induction l1 with
  | nil =>
    intro name start l2 _
    show (buildSections text ((name, start) :: l2)).lookup name = _
    rw [show buildSections text ((name, start) :: l2)
        = (name, listSlice text (start + name.length) (nextEnd text l2))
          :: buildSections text l2 from rfl,
      List.lookup_cons]
    simp
  | cons mq l1 ih =>
    intro name start l2 hnodup
    obtain ⟨m, q⟩ := mq
    have hmne : (name == m) = false := by
      refine beq_eq_false_iff_ne.mpr fun hmn => ?_
      simp only [List.cons_append, List.map_cons, List.nodup_cons] at hnodup
      exact hnodup.1 (by
        rw [← hmn]
        exact List.mem_map.mpr ⟨(name, start),
          List.mem_append.mpr (Or.inr (List.mem_cons_self _ _)), rfl⟩)
    have hnodup' : ((l1 ++ (name, start) :: l2).map Prod.fst).Nodup := by
      simp only [List.cons_append, List.map_cons, List.nodup_cons] at hnodup
      exact hnodup.2
    show ((m, listSlice text (q + m.length)
          (nextEnd text (l1 ++ (name, start) :: l2)))
        :: buildSections text (l1 ++ (name, start) :: l2)).lookup name = _
    rw [List.lookup_cons, hmne]
    exact ih name start l2 hnodup'

lemma buildSections_keys (text : List Char) :
    ∀ l : List (String × Nat), (buildSections text l).map Prod.fst = l.map Prod.fst := by
  intro l
  induction l with
  | nil => rfl
  | cons nq l ih =>
    obtain ⟨n, s⟩ := nq
    show n :: (buildSections text l).map Prod.fst = n :: l.map Prod.fst
    rw [ih]

lemma lookup_eq_none_of_not_mem {name : String} :
    ∀ l : List (String × List Char), name ∉ l.map Prod.fst → l.lookup name = none := by
  intro l
  induction l with
  | nil => intro _; rfl
  | cons kv l ih =>
    intro hmem
    obtain ⟨k, v⟩ := kv
    simp only [List.map_cons, List.mem_cons] at hmem
    rw [List.lookup_cons, show (name == k) = false from
      beq_eq_false_iff_ne.mpr fun hk => hmem (Or.inl hk)]
    exact ih fun hm => hmem (Or.inr hm)

lemma mem_headerPositions {text : List Char} {h : String} {p : Nat} :
    (h, p) ∈ headerPositions text ↔
      h ∈ SECTION_HEADERS ∧ strFind text h.data = some p := by
  unfold headerPositions
  rw [List.mem_filterMap]
  constructor
  · rintro ⟨a, ha, hfa⟩
    rw [Option.map_eq_some'] at hfa
    obtain ⟨i, hi, heq⟩ := hfa
    obtain ⟨rfl, rfl⟩ : a = h ∧ i = p := by
      constructor <;> [exact congrArg Prod.fst heq; exact congrArg Prod.snd heq]
    exact ⟨ha, hi⟩
  · rintro ⟨hmem, hfind⟩
    exact ⟨h, hmem, by rw [hfind]; rfl⟩

lemma headerPositions_keys (text : List Char) :
    ∀ hs : List String,
      (hs.filterMap fun h => (strFind text h.data).map fun i => (h, i)).map Prod.fst
        = hs.filter fun h => (strFind text h.data).isSome := by
  intro hs
  induction hs with
  | nil => rfl
  | cons a hs ih =>
    cases hfa : strFind text a.data with
    | none =>
      rw [List.filterMap_cons_none (by rw [hfa]; rfl),
        List.filter_cons_of_neg (by simp [hfa]), ih]
    | some i =>
      rw [List.filterMap_cons_some (by rw [hfa]; rfl),
        List.filter_cons_of_pos (by simp [hfa])]
      show (a, i).1 :: _ = _
      rw [ih]

lemma headerPositions_nodup (text : List Char) :
    ((headerPositions text).map Prod.fst).Nodup := by
  rw [show (headerPositions text).map Prod.fst
      = SECTION_HEADERS.filter fun h => (strFind text h.data).isSome from
    headerPositions_keys text SECTION_HEADERS]
  exact List.Nodup.filter _ (by decide)

lemma sortedHdrs_perm (text : List Char) :
    List.insertionSort posLe (headerPositions text) |>.Perm (headerPositions text) :=
  List.perm_insertionSort posLe (headerPositions text)

lemma sortedHdrs_nodup (text : List Char) :
    ((List.insertionSort posLe (headerPositions text)).map Prod.fst).Nodup :=
  (((sortedHdrs_perm text).map Prod.fst).nodup_iff).mpr (headerPositions_nodup text)

lemma sortedHdrs_sorted (text : List Char) :
    List.Sorted posLe (List.insertionSort posLe (headerPositions text)) :=
  List.sorted_insertionSort posLe (headerPositions text)

lemma mem_sortedHdrs {text : List Char} {x : String × Nat} :
    x ∈ List.insertionSort posLe (headerPositions text) ↔ x ∈ headerPositions text :=
  (sortedHdrs_perm text).mem_iff

/-- When every other found header's first occurrence is strictly before the
"Purchase and Sale Summary" occurrence at `A`, that section is last in offset
order and its span runs to the end of the text. -/
lemma split_lookup_last (text : List Char) (A : Nat)
    (hA : strFind text pssHeader.data = some A)
    (hothers : ∀ h ∈ SECTION_HEADERS, h ≠ pssHeader → ∀ p,
      strFind text h.data = some p → p < A) :
    (split_sections text).lookup pssHeader
      = some (listSlice text (A + pssHeader.length) text.length) := by
  have hmem : (pssHeader, A) ∈ List.insertionSort posLe (headerPositions text) :=
    mem_sortedHdrs.mpr (mem_headerPositions.mpr ⟨by decide, hA⟩)
  obtain ⟨l1, l2, hdecomp⟩ := List.append_of_mem hmem
  have hnodup : ((l1 ++ (pssHeader, A) :: l2).map Prod.fst).Nodup := by
    rw [← hdecomp]; exact sortedHdrs_nodup text
  have hsorted : List.Sorted posLe (l1 ++ (pssHeader, A) :: l2) := by
    rw [← hdecomp]; exact sortedHdrs_sorted text
  have hl2 : l2 = [] := by
    rcases l2 with _ | ⟨⟨n2, p2⟩, l2'⟩
    · rfl
    · exfalso
      have hle : posLe (pssHeader, A) (n2, p2) := by
        have hp := (List.pairwise_append.mp hsorted).2.1
        exact (List.pairwise_cons.mp hp).1 _ (List.mem_cons_self _ _)
      have hmem2 : (n2, p2) ∈ headerPositions text := by
        apply mem_sortedHdrs.mp
        rw [hdecomp]
        exact List.mem_append.mpr (Or.inr (List.mem_cons_of_mem _ (List.mem_cons_self _ _)))
      obtain ⟨hn2mem, hn2find⟩ := mem_headerPositions.mp hmem2
      have hne : n2 ≠ pssHeader := by
        intro he
        subst he
        have hkeys : (pssHeader :: pssHeader :: l2'.map Prod.fst).Nodup := by
          have h' := hnodup
          rw [List.map_append] at h'
          have h'' := h'.of_append_right
          simp only [List.map_cons] at h''
          exact h''
        simp at hkeys
      have := hothers n2 hn2mem hne p2 hn2find
      have : A ≤ p2 := hle
      omega
  subst hl2
  unfold split_sections
  rw [hdecomp]
  exact lookup_buildSections text l1 pssHeader A [] hnodup

/-- When some other header is first found at `B > A` and no other found header's
first occurrence lies in `[A, B)`, the "Purchase and Sale Summary" span ends
exactly at `B`. -/
lemma split_lookup_between (text : List Char) (A B : Nat) (hop : String)
    (hA : strFind text pssHeader.data = some A)
    (hopmem : hop ∈ SECTION_HEADERS) (hopne : hop ≠ pssHeader)
    (hB : strFind text hop.data = some B) (hAB : A < B)
    (hothers : ∀ h ∈ SECTION_HEADERS, h ≠ pssHeader → ∀ p,
      strFind text h.data = some p → p < A ∨ B ≤ p) :
    (split_sections text).lookup pssHeader
      = some (listSlice text (A + pssHeader.length) B) := by
  have hmem : (pssHeader, A) ∈ List.insertionSort posLe (headerPositions text) :=
    mem_sortedHdrs.mpr (mem_headerPositions.mpr ⟨by decide, hA⟩)
  obtain ⟨l1, l2, hdecomp⟩ := List.append_of_mem hmem
  have hnodup : ((l1 ++ (pssHeader, A) :: l2).map Prod.fst).Nodup := by
    rw [← hdecomp]; exact sortedHdrs_nodup text
  have hsorted : List.Sorted posLe (l1 ++ (pssHeader, A) :: l2) := by
    rw [← hdecomp]; exact sortedHdrs_sorted text
  have hpairs := List.pairwise_append.mp hsorted
  have hopin : (hop, B) ∈ l1 ++ (pssHeader, A) :: l2 := by
    rw [← hdecomp]
    exact mem_sortedHdrs.mpr (mem_headerPositions.mpr ⟨hopmem, hB⟩)
  have hopl2 : (hop, B) ∈ l2 := by
    rcases List.mem_append.mp hopin with h1 | h2
    · exfalso
      have : posLe (hop, B) (pssHeader, A) :=
        hpairs.2.2 _ h1 _ (List.mem_cons_self _ _)
      have : B ≤ A := this
      omega
    · rcases List.mem_cons.mp h2 with heq | h3
      · exact absurd (congrArg Prod.fst heq) hopne
      · exact h3
  rcases hl2 : l2 with _ | ⟨⟨n2, p2⟩, l2'⟩
  · rw [hl2] at hopl2; cases hopl2
  · rw [hl2] at hopl2 hnodup hsorted hpairs hdecomp
    have hA_le_p2 : A ≤ p2 := by
      have hp := hpairs.2.1
      exact (List.pairwise_cons.mp hp).1 _ (List.mem_cons_self _ _)
    have hmem2 : (n2, p2) ∈ headerPositions text := by
      apply mem_sortedHdrs.mp
      rw [hdecomp]
      exact List.mem_append.mpr (Or.inr (List.mem_cons_of_mem _ (List.mem_cons_self _ _)))
    obtain ⟨hn2mem, hn2find⟩ := mem_headerPositions.mp hmem2
    have hne : n2 ≠ pssHeader := by
      intro he
      subst he
      have hkeys : (pssHeader :: pssHeader :: l2'.map Prod.fst).Nodup := by
        have h' := hnodup
        rw [List.map_append] at h'
        have h'' := h'.of_append_right
        simp only [List.map_cons] at h''
        exact h''
      simp at hkeys
    have hp2B : B ≤ p2 := by
      rcases hothers n2 hn2mem hne p2 hn2find with h | h
      · omega
      · exact h
    have hp2B' : p2 ≤ B := by
      rcases List.mem_cons.mp hopl2 with heq | h3
      · have : p2 = B := (congrArg Prod.snd heq).symm
        omega
      · have hp := hpairs.2.1
        have hp' := (List.pairwise_cons.mp hp).2
        have : posLe (n2, p2) (hop, B) :=
          (List.pairwise_cons.mp hp').1 _ h3
        exact this
    have hp2 : p2 = B := Nat.le_antisymm hp2B' hp2B
    subst hp2
    unfold split_sections
    rw [hdecomp]
    exact lookup_buildSections text l1 pssHeader A ((n2, p2) :: l2') hnodup

/-! ### Decimal-string facts for `fmt_contract_month` -/

lemma digitChar_roundtrip {c : Char} (h : isDigitC c = true) :
    digitChar (c.toNat - 48) = c := by
  simp only [isDigitC, Bool.and_eq_true, decide_eq_true_eq] at h
  unfold digitChar
  rw [show 48 + (c.toNat - 48) = c.toNat by omega]
  exact Char.ofNat_toNat c

lemma pyIntStrAux_zero : ∀ f, pyIntStrAux f 0 = [] := by
  intro f
  cases f <;> rfl

lemma pyIntStrAux_succ (f n : Nat) (hn : n ≠ 0) :
    pyIntStrAux (f + 1) n = pyIntStrAux f (n / 10) ++ [digitChar (n % 10)] := by
  cases n with
  | zero => exact absurd rfl hn
  | succ k => rfl

lemma pyIntStrAux_fuel : ∀ f g n : Nat, n ≤ f → n ≤ g →
    pyIntStrAux f n = pyIntStrAux g n := by
  intro f
  induction f with
  | zero =>
    intro g n hf _
    have : n = 0 := Nat.le_zero.mp hf
    subst this
    rw [pyIntStrAux_zero, pyIntStrAux_zero]
  | succ f ih =>
    intro g n hf hg
    cases n with
    | zero => rw [pyIntStrAux_zero, pyIntStrAux_zero]
    | succ k =>
      cases g with
      | zero => simp at hg
      | succ g =>
        rw [pyIntStrAux_succ f _ (by omega), pyIntStrAux_succ g _ (by omega),
          ih g ((k + 1) / 10) (by omega) (by omega)]

lemma pyIntStrAux_step (f n : Nat) (h : n ≤ f) (hn : 0 < n) :
    pyIntStrAux f n = pyIntStrAux (n / 10) (n / 10) ++ [digitChar (n % 10)] := by
  cases f with
  | zero => omega
  | succ f =>
    rw [pyIntStrAux_succ f n (by omega),
      pyIntStrAux_fuel f (n / 10) (n / 10) (by omega) (Nat.le_refl _)]

lemma pyIntStr_two {c d : Nat} (hc : 1 ≤ c) (hc9 : c ≤ 9) (hd : d ≤ 9) :
    pyIntStr (10 * c + d) = [digitChar c, digitChar d] := by
  have hne : 10 * c + d ≠ 0 := by omega
  unfold pyIntStr
  rw [if_neg hne,
    pyIntStrAux_step _ _ (Nat.le_refl _) (by omega),
    show (10 * c + d) / 10 = c by omega,
    show (10 * c + d) % 10 = d by omega,
    pyIntStrAux_step c c (Nat.le_refl _) (by omega),
    show c / 10 = 0 by omega, show c % 10 = c by omega,
    pyIntStrAux_zero]
  rfl

lemma pyIntStr_three {b c d : Nat} (hb : 1 ≤ b) (hb9 : b ≤ 9) (hc : c ≤ 9) (hd : d ≤ 9) :
    pyIntStr (100 * b + 10 * c + d) = [digitChar b, digitChar c, digitChar d] := by
  have hne : 100 * b + 10 * c + d ≠ 0 := by omega
  unfold pyIntStr
  rw [if_neg hne,
    pyIntStrAux_step _ _ (Nat.le_refl _) (by omega),
    show (100 * b + 10 * c + d) / 10 = 10 * b + c by omega,
    show (100 * b + 10 * c + d) % 10 = d by omega]
  have := pyIntStr_two (c := b) (d := c) hb hb9 hc
  unfold pyIntStr at this
  rw [if_neg (by omega)] at this
  rw [this]
  rfl

lemma pyIntStr_four {a b c d : Nat} (ha : 1 ≤ a) (ha9 : a ≤ 9) (hb : b ≤ 9)
    (hc : c ≤ 9) (hd : d ≤ 9) :
    pyIntStr (1000 * a + 100 * b + 10 * c + d)
      = [digitChar a, digitChar b, digitChar c, digitChar d] := by
  have hne : 1000 * a + 100 * b + 10 * c + d ≠ 0 := by omega
  unfold pyIntStr
  rw [if_neg hne,
    pyIntStrAux_step _ _ (Nat.le_refl _) (by omega),
    show (1000 * a + 100 * b + 10 * c + d) / 10 = 100 * a + 10 * b + c by omega,
    show (1000 * a + 100 * b + 10 * c + d) % 10 = d by omega]
  have := pyIntStr_three (b := a) (c := b) (d := c) ha ha9 hb hc
  unfold pyIntStr at this
  rw [if_neg (by omega)] at this
  rw [this]
  rfl

lemma natOfDigits_four (p q r s : Char) :
    natOfDigits [p, q, r, s] =
      1000 * (p.toNat - 48) + 100 * (q.toNat - 48) + 10 * (r.toNat - 48) +
        (s.toNat - 48) := by
  simp only [natOfDigits, List.foldl]
  ring

/-- `str(int(year))[-2:]` equals the last two characters of a 4-digit year
string, provided its value is at least 10 (i.e. its decimal representation
keeps at least two digits). -/
lemma takeLast2_pyIntStr_year {y : List Char} (hlen : y.length = 4)
    (hdig : y.all isDigitC = true) (hval : 10 ≤ natOfDigits y) :
    takeLast 2 (pyIntStr (natOfDigits y)) = takeLast 2 y := by
  obtain ⟨p, q, r, s, rfl⟩ := exists_len4 hlen
  simp only [List.all_cons, List.all_nil, Bool.and_eq_true, and_true] at hdig
  obtain ⟨hp, hq, hr, hs⟩ := hdig
  have hpn : p.toNat - 48 ≤ 9 ∧ 48 ≤ p.toNat := by
    simp only [isDigitC, Bool.and_eq_true, decide_eq_true_eq] at hp; omega
  have hqn : q.toNat - 48 ≤ 9 ∧ 48 ≤ q.toNat := by
    simp only [isDigitC, Bool.and_eq_true, decide_eq_true_eq] at hq; omega
  have hrn : r.toNat - 48 ≤ 9 ∧ 48 ≤ r.toNat := by
    simp only [isDigitC, Bool.and_eq_true, decide_eq_true_eq] at hr; omega
  have hsn : s.toNat - 48 ≤ 9 ∧ 48 ≤ s.toNat := by
    simp only [isDigitC, Bool.and_eq_true, decide_eq_true_eq] at hs; omega
  rw [natOfDigits_four] at hval ⊢
  have hlast : takeLast 2 [p, q, r, s] = [r, s] := rfl
  rw [hlast]
  by_cases hp0 : 1 ≤ p.toNat - 48
  · rw [pyIntStr_four hp0 hpn.1 hqn.1 hrn.1 hsn.1]
    rw [show takeLast 2 [digitChar (p.toNat - 48), digitChar (q.toNat - 48),
        digitChar (r.toNat - 48), digitChar (s.toNat - 48)]
      = [digitChar (r.toNat - 48), digitChar (s.toNat - 48)] from rfl]
    rw [digitChar_roundtrip hr, digitChar_roundtrip hs]
  · have hp0' : p.toNat - 48 = 0 := by omega
    rw [hp0']
    by_cases hq0 : 1 ≤ q.toNat - 48
    · rw [show 1000 * 0 + 100 * (q.toNat - 48) + 10 * (r.toNat - 48) + (s.toNat - 48)
          = 100 * (q.toNat - 48) + 10 * (r.toNat - 48) + (s.toNat - 48) by ring]
      rw [pyIntStr_three hq0 hqn.1 hrn.1 hsn.1]
      rw [show takeLast 2 [digitChar (q.toNat - 48), digitChar (r.toNat - 48),
          digitChar (s.toNat - 48)]
        = [digitChar (r.toNat - 48), digitChar (s.toNat - 48)] from rfl]
      rw [digitChar_roundtrip hr, digitChar_roundtrip hs]
    · have hq0' : q.toNat - 48 = 0 := by omega
      rw [hq0']
      have hr0 : 1 ≤ r.toNat - 48 := by omega
      rw [show 1000 * 0 + 100 * 0 + 10 * (r.toNat - 48) + (s.toNat - 48)
          = 10 * (r.toNat - 48) + (s.toNat - 48) by ring]
      rw [pyIntStr_two hr0 hrn.1 hsn.1]
      rw [show takeLast 2 [digitChar (r.toNat - 48), digitChar (s.toNat - 48)]
        = [digitChar (r.toNat - 48), digitChar (s.toNat - 48)] from rfl]
      rw [digitChar_roundtrip hr, digitChar_roundtrip hs]

/-- Out-of-range month values have no table entry. -/
lemma monthLookup_none {v : Nat} (h : v = 0 ∨ 12 < v) :
    MONTH_NAMES.lookup v = none := by
  have h1 : v ≠ 1 := by omega
  have h2 : v ≠ 2 := by omega
  have h3 : v ≠ 3 := by omega
  have h4 : v ≠ 4 := by omega
  have h5 : v ≠ 5 := by omega
  have h6 : v ≠ 6 := by omega
  have h7 : v ≠ 7 := by omega
  have h8 : v ≠ 8 := by omega
  have h9 : v ≠ 9 := by omega
  have h10 : v ≠ 10 := by omega
  have h11 : v ≠ 11 := by omega
  have h12 : v ≠ 12 := by omega
  simp only [MONTH_NAMES, List.lookup]
  rw [show (v == 1) = false from beq_eq_false_iff_ne.mpr h1,
    show (v == 2) = false from beq_eq_false_iff_ne.mpr h2,
    show (v == 3) = false from beq_eq_false_iff_ne.mpr h3,
    show (v == 4) = false from beq_eq_false_iff_ne.mpr h4,
    show (v == 5) = false from beq_eq_false_iff_ne.mpr h5,
    show (v == 6) = false from beq_eq_false_iff_ne.mpr h6,
    show (v == 7) = false from beq_eq_false_iff_ne.mpr h7,
    show (v == 8) = false from beq_eq_false_iff_ne.mpr h8,
    show (v == 9) = false from beq_eq_false_iff_ne.mpr h9,
    show (v == 10) = false from beq_eq_false_iff_ne.mpr h10,
    show (v == 11) = false from beq_eq_false_iff_ne.mpr h11,
    show (v == 12) = false from beq_eq_false_iff_ne.mpr h12]

/-- A matched row whose integer month is outside 1–12 fails normalization:
the `KeyError` of `fmt_contract_month`. -/
lemma normalize_month_out {caps : RowCaptures}
    (hne : caps.month ≠ []) (hdig : caps.month.all isDigitC = true)
    (hval : natOfDigits caps.month = 0 ∨ 12 < natOfDigits caps.month) :
    fmt_contract_month caps.year caps.month = none ∧ normalize caps = none := by
  have hfmt : fmt_contract_month caps.year caps.month = none := by
    unfold fmt_contract_month
    rw [show pyIntNat caps.month = some (natOfDigits caps.month) by
      simp [pyIntNat, isEmpty_false_of_ne_nil hne, hdig]]
    rw [Option.some_bind]
    cases pyIntNat caps.year with
    | none => rfl
    | some yv =>
      rw [Option.some_bind, monthLookup_none hval]
      rfl
  exact ⟨hfmt, by unfold normalize; rw [hfmt]; rfl⟩

/-- Evaluation of `fmt_contract_month` on an in-table month. -/
lemma fmt_eval {m : Nat} {nm : String} {mS y : List Char}
    (hme : pyIntNat mS = some m)
    (hlk : MONTH_NAMES.lookup m = some nm)
    (hyear : pyIntNat y = some (natOfDigits y))
    (hstr : takeLast 2 (pyIntStr (natOfDigits y)) = takeLast 2 y) :
    fmt_contract_month y mS = some (nm.data ++ takeLast 2 y) := by
  unfold fmt_contract_month
  rw [hme, Option.some_bind, hyear, Option.some_bind, hlk, Option.map_some', hstr]

/-- A document without the "Purchase and Sale Summary" header gets no such
section: the lookup misses and `parse_pdf` falls back to the empty string. -/
lemma getSection_absent (text : List Char)
    (h : strFind text pssHeader.data = none) : getSection text pssHeader = [] := by
  unfold getSection
  rw [show (split_sections text).lookup pssHeader = none from ?_]
  · rfl
  · apply lookup_eq_none_of_not_mem
    unfold split_sections
    rw [buildSections_keys]
    intro hmem
    obtain ⟨⟨n, p⟩, hnp, hfst⟩ := List.mem_map.mp hmem
    obtain ⟨-, hfind⟩ := mem_headerPositions.mp (mem_sortedHdrs.mp hnp)
    rw [show n = pssHeader from hfst] at hfind
    rw [hfind] at h
    cases h

/-! ## Claim theorems -/

/-- **C10**: every ledger item built by `make_item` carries the same freshly
generated identity in `assetId` and `txId`, `gsi1pk = userId`,
`gsi1sk = "FUTURES_TX#" ++ tradeDate ++ "#" ++ txId`, the constant kind
markers `assetType = "FUTURES_TX"` and `type = "SUMMARY"`, and empty notes. -/
theorem C10_ledger_item (record : TransactionRecord) (user_id tx_id now : List Char) :
    (make_item record user_id tx_id now).assetId = tx_id ∧
    (make_item record user_id tx_id now).txId = tx_id ∧
    (make_item record user_id tx_id now).assetId = (make_item record user_id tx_id now).txId ∧
    (make_item record user_id tx_id now).gsi1pk = user_id ∧
    (make_item record user_id tx_id now).gsi1sk
      = "FUTURES_TX#".data ++ record.tradeDate ++ '#' :: tx_id ∧
    (make_item record user_id tx_id now).assetType = "FUTURES_TX".data ∧
    (make_item record user_id tx_id now).type = "SUMMARY".data ∧
    (make_item record user_id tx_id now).notes = [] :=
  ⟨rfl, rfl, rfl, rfl, rfl, rfl, rfl, rfl⟩

/-- **C8**: a document text without the "Purchase and Sale Summary" header
contributes an empty section: zero records, no error, and the surrounding
multi-document run is unchanged by its presence. -/
theorem C8_missing_header (t : List Char) (pre post : List (List Char))
    (h : strFind t pssHeader.data = none) :
    parse_pdf_text t = some [] ∧
    run_pipeline (pre ++ t :: post) = run_pipeline (pre ++ post) := by
  have hsec : getSection t pssHeader = [] := getSection_absent t h
  have hpdf : parse_pdf_text t = some [] := by
    show parse_summary (getSection t pssHeader) = some []
    rw [hsec]
    rfl
  exact ⟨hpdf, runGo_drop_empty hpdf pre post []⟩

/-- Witness for C8 on a concrete header-free document. -/
theorem C8_missing_header_witness :
    parse_pdf_text "hello world".data = some [] ∧
    run_pipeline ["hello world".data] = run_pipeline [] :=
  C8_missing_header "hello world".data [] [] (by decide)

/-- **C7**: the pipeline's aggregate is exactly the concatenation of each
document's records in document order (no deduplication or merging): two
documents with one record each always yield a two-element list, and the
`(tradeDate, ticker)` presentation sort only permutes a copy for printing. -/
theorem C7_aggregate_concat :
    (∀ texts, run_pipeline texts = docConcatSpec texts) ∧
    (∀ t1 t2 r1 r2, parse_pdf_text t1 = some [r1] → parse_pdf_text t2 = some [r2] →
      run_pipeline [t1, t2] = some [r1, r2]) ∧
    (∀ rs, List.Perm (presentationSort rs) rs) := by
  have hmain : ∀ texts, run_pipeline texts = docConcatSpec texts := by
    intro texts
    unfold run_pipeline
    rw [runGo_eq_concat texts []]
    cases docConcatSpec texts with
    | none => rfl
    | some rs => simp
  refine ⟨hmain, ?_, fun rs => List.perm_insertionSort recLe rs⟩
  intro t1 t2 r1 r2 h1 h2
  rw [hmain [t1, t2], docConcatSpec_cons_some _ h1, docConcatSpec_cons_some _ h2]
  rfl

/-- Witness for C7: the same document twice (coinciding tradeDate and ticker)
still yields two records. -/
theorem C7_aggregate_concat_witness :
    run_pipeline [docBoth, docBoth] = some [sampleRecord, sampleRecord] :=
  C7_aggregate_concat.2.1 docBoth docBoth sampleRecord sampleRecord
    (by decide) (by decide)

/-- **C4 counterexample**: the line whose GROSS_PL token is `1.2.3` does not
conform to §4.2's row grammar (GROSS_PL is not an optionally-signed decimal),
yet it is *not* silently skipped: `SUMMARY_RE` matches it (`[-\d.]+` accepts
`1.2.3`) and `float("1.2.3")` then raises, aborting the whole parse instead of
producing zero records without error. -/
theorem C4_counterexample :
    (matchSummary (pyStrip rowBadGross)).isSome = true ∧
    parse_summary rowBadGross = none := by decide

/-- **C4** (amended): every line that the regex `SUMMARY_RE` does not match is
silently skipped — it contributes no record, raises nothing, and parsing of
the remaining lines continues unchanged.  (Lines that *match* the regex can
still abort: see the counterexample.) -/
theorem C4_unmatched_skipped (l1 l2 : List (List Char)) (line : List Char)
    (h : matchSummary (pyStrip line) = none) :
    parseLines (l1 ++ line :: l2) = parseLines (l1 ++ l2) :=
  parseLines_skip l1 l2 h

/-- Witness for C4 on a subtotal-style line between a header line and a real
row. -/
theorem C4_unmatched_skipped_witness :
    parseLines (["Date Description".data] ++ "Total 125.50".data :: [sampleRow])
      = parseLines (["Date Description".data] ++ [sampleRow]) :=
  C4_unmatched_skipped ["Date Description".data] [sampleRow] "Total 125.50".data
    (by decide)

/-- **C5 counterexample**: for the 4-digit year string "0005" the code yields
"May5" (because `str(int("0005")) = "5"`), not the claimed "May05" built from
the year's last two digits. -/
theorem C5_counterexample :
    fmt_contract_month "0005".data "5".data = some "May5".data ∧
    "May5".data ≠ "May05".data := by decide

/-- **C5** (amended): for every month integer 1–12 (however its digit string is
written) and every 4-digit year string of value at least 10, the contract
month is the fixed table's 3-letter abbreviation concatenated with the last
two characters of the year.  (4-digit years of value < 10, i.e. "000d", drop
their leading zeros — see the counterexample.) -/
theorem C5_contract_month (m : Nat) (mS y : List Char)
    (hm1 : 1 ≤ m) (hm2 : m ≤ 12) (hms : pyIntNat mS = some m)
    (hlen : y.length = 4) (hdig : y.all isDigitC = true)
    (hval : 10 ≤ natOfDigits y) :
    ∃ nm, MONTH_NAMES.lookup m = some nm ∧
      fmt_contract_month y mS = some (nm.data ++ takeLast 2 y) := by
  have hyne : y ≠ [] := by
    intro hy
    rw [hy] at hlen
    simp at hlen
  have hyear : pyIntNat y = some (natOfDigits y) := by
    simp [pyIntNat, isEmpty_false_of_ne_nil hyne, hdig]
  have hstr : takeLast 2 (pyIntStr (natOfDigits y)) = takeLast 2 y :=
    takeLast2_pyIntStr_year hlen hdig hval
  interval_cases m <;> exact ⟨_, rfl, fmt_eval hms rfl hyear hstr⟩

/-- Witness for C5 at month 5, year "2023". -/
theorem C5_contract_month_witness :
    ∃ nm, MONTH_NAMES.lookup 5 = some nm ∧
      fmt_contract_month "2023".data "5".data
        = some (nm.data ++ takeLast 2 "2023".data) :=
  C5_contract_month 5 "5".data "2023".data (by decide) (by decide) (by decide)
    (by decide) (by decide) (by decide)

/-- **C6 counterexample**: a line whose MONTH token is the three-digit `123`
*does* match `SUMMARY_RE` (its month group is `\d+`, not 1–2 digits), with
month capture "123". -/
theorem C6_counterexample :
    matchSummary (pyStrip rowMonth123)
      = some ⟨"2023-05-10".data, "2".data, "2".data, "ZB".data, "2023".data,
          "123".data, "125.50".data⟩ := by decide

/-- **C6** (amended): a stripped line matches `SUMMARY_RE` iff its leading
whitespace-separated tokens are shaped: DATE `YYYY-MM-DD`, the literal `US`,
two unsigned integers, an uppercase ticker, a 4-digit year, a MONTH of **one
or more** digits, an alphanumeric word, a digits/dashes token, a nonempty
token over digits, dashes and dots, and a token **beginning with** `USD`
(arbitrary trailing text allowed). -/
theorem C6_grammar_iff (line : List Char) :
    (matchSummary (pyStrip line)).isSome = true ↔
      ∃ t0 t2 t3 t4 t5 t6 t7 t8 t9 t10 rest,
        tokensOf (pyStrip line) =
          t0 :: ['U', 'S'] :: t2 :: t3 :: t4 :: t5 :: t6 :: t7 :: t8 :: t9 :: t10 :: rest ∧
        isDateTok t0 = true ∧ isNatTok t2 = true ∧ isNatTok t3 = true ∧
        isTickerTok t4 = true ∧ isYearTok t5 = true ∧ isNatTok t6 = true ∧
        isWordTok t7 = true ∧ isExpiryTok t8 = true ∧ isGrossTok t9 = true ∧
        ['U', 'S', 'D'].isPrefixOf t10 = true := by
  constructor
  · intro h
    obtain ⟨caps, hcaps⟩ := Option.isSome_iff_exists.mp h
    obtain ⟨t0, t2, t3, t4, t5, t6, t7, t8, t9, t10, rest, htok, h0, h2, h3, h4, h5,
      h6, h7, h8, h9, h10, -⟩ := matchSummary_tokens hcaps
    exact ⟨t0, t2, t3, t4, t5, t6, t7, t8, t9, t10, rest, htok, h0, h2, h3, h4, h5,
      h6, h7, h8, h9, h10⟩
  · rintro ⟨t0, t2, t3, t4, t5, t6, t7, t8, t9, t10, rest, htok, h0, h2, h3, h4, h5,
      h6, h7, h8, h9, h10⟩
    rw [matchSummary_of_tokens (headNo_pyStrip line) htok h0 h2 h3 h4 h5 h6 h7 h8 h9 h10]
    rfl

/-- **C1 counterexample**: in `docPssOpen` the PSS header first occurs at 0,
"Open Positions" at 92, and no recognized header's first occurrence lies
strictly between them ("Purchase and Sale", a prefix of the PSS header, ties
at 0) — yet the splitter assigns PSS the *empty* span, not the nonempty
`text[25:92]` the claim requires. -/
theorem C1_counterexample :
    strFind docPssOpen pssHeader.data = some 0 ∧
    strFind docPssOpen "Open Positions".data = some 92 ∧
    (∀ h ∈ SECTION_HEADERS, strFind docPssOpen h.data = none ∨
      strFind docPssOpen h.data = some 0 ∨ strFind docPssOpen h.data = some 92) ∧
    (split_sections docPssOpen).lookup pssHeader = some [] ∧
    listSlice docPssOpen (0 + pssHeader.length) 92 ≠ [] := by decide

/-- **C1** (amended): if the PSS header first occurs at `A` then (1) when
"Open Positions" first occurs at `B > A` and no *other* recognized header's
first occurrence lies in `[A, B)` — in particular "Purchase and Sale", being a
prefix of the PSS header, must first occur strictly *before* `A` — the
splitter assigns PSS exactly `text[A+25 : B]`; and (2) when every other
recognized header's first occurrence is strictly before `A`, the span runs to
the end of the text. -/
theorem C1_splitter_span (text : List Char) (A : Nat)
    (hA : strFind text pssHeader.data = some A) :
    (∀ B, strFind text "Open Positions".data = some B → A < B →
      (∀ h ∈ SECTION_HEADERS, h ≠ pssHeader → ∀ p, strFind text h.data = some p →
        p < A ∨ B ≤ p) →
      (split_sections text).lookup pssHeader
        = some (listSlice text (A + pssHeader.length) B)) ∧
    ((∀ h ∈ SECTION_HEADERS, h ≠ pssHeader → ∀ p, strFind text h.data = some p → p < A) →
      (split_sections text).lookup pssHeader
        = some (listSlice text (A + pssHeader.length) text.length)) := by
  constructor
  · intro B hB hAB hothers
    exact split_lookup_between text A B "Open Positions" hA (by decide) (by decide)
      hB hAB hothers
  · intro hothers
    exact split_lookup_last text A hA hothers

/-- Witness for C1 on `docSandwichA` (PSS at 20, Open Positions at 50) and
`docSandwichB` (PSS at 20, nothing after). -/
theorem C1_splitter_span_witness :
    (split_sections docSandwichA).lookup pssHeader
      = some (listSlice docSandwichA (20 + pssHeader.length) 50) ∧
    (split_sections docSandwichB).lookup pssHeader
      = some (listSlice docSandwichB (20 + pssHeader.length) docSandwichB.length) := by
  constructor
  · refine (C1_splitter_span docSandwichA 20 (by decide)).1 50 (by decide) (by decide) ?_
    intro h hmem hne p hp
    fin_cases hmem
    · rw [show strFind docSandwichA "Monthly Trade Confirmations".data = none
          from by decide] at hp
      cases hp
    · rw [show strFind docSandwichA "Trade Confirmation Summary".data = none
          from by decide] at hp
      cases hp
    · exact absurd rfl hne
    · rw [show strFind docSandwichA "Purchase and Sale".data = some 0
          from by decide] at hp
      obtain rfl := Option.some.inj hp
      omega
    · rw [show strFind docSandwichA "Open Positions".data = some 50
          from by decide] at hp
      obtain rfl := Option.some.inj hp
      omega
    · rw [show strFind docSandwichA "Journal Entries".data = none
          from by decide] at hp
      cases hp
  · refine (C1_splitter_span docSandwichB 20 (by decide)).2 ?_
    intro h hmem hne p hp
    fin_cases hmem
    · rw [show strFind docSandwichB "Monthly Trade Confirmations".data = none
          from by decide] at hp
      cases hp
    · rw [show strFind docSandwichB "Trade Confirmation Summary".data = none
          from by decide] at hp
      cases hp
    · exact absurd rfl hne
    · rw [show strFind docSandwichB "Purchase and Sale".data = some 0
          from by decide] at hp
      obtain rfl := Option.some.inj hp
      omega
    · rw [show strFind docSandwichB "Open Positions".data = none
          from by decide] at hp
      cases hp
    · rw [show strFind docSandwichB "Journal Entries".data = none
          from by decide] at hp
      cases hp

/-- **C2 counterexample**: `docPssOnly` contains the PSS header (at 0) and the
sample row — which matches the grammar — yet the pipeline yields *zero*
records for it, not the single expected record: the prefix header "Purchase
and Sale" ties at offset 0 and the splitter assigns PSS the empty span. -/
theorem C2_counterexample :
    (matchSummary (pyStrip sampleRow)).isSome = true ∧
    strFind docPssOnly pssHeader.data = some 0 ∧
    parse_pdf_text docPssOnly = some [] := by decide

/-- **C2** (amended): whenever the section the splitter assigns to "Purchase
and Sale Summary" has exactly one grammar-matching line, the sample row,
the pipeline yields exactly the sample record (tradeDate "2023-05-10",
ticker "ZB", contractMonth "May23", qty 2, grossPL 125.50). -/
theorem C2_single_row (text l : List Char)
    (hfilter : (pyLines (getSection text pssHeader)).filter
        (fun ln => (matchSummary (pyStrip ln)).isSome) = [l])
    (hl : pyStrip l = sampleRow) :
    parse_pdf_text text = some [sampleRecord] := by
  show parse_summary (getSection text pssHeader) = some [sampleRecord]
  unfold parse_summary
  rw [parseLines_of_filter hfilter, hl]
  decide

/-- Witness for C2 on `docBoth`, where "Purchase and Sale" precedes the PSS
header so the splitter assigns PSS the row-bearing span. -/
theorem C2_single_row_witness : parse_pdf_text docBoth = some [sampleRecord] :=
  C2_single_row docBoth sampleRow (by decide) (by decide)

/-- **C3**: a matched row whose captured month value is outside 1–12 (the
capture is always a nonempty digit string) fails normalization with the
month-table lookup failure; no record is produced, the document's parse
aborts, and the whole multi-document run returns nothing (records aggregated
from earlier documents are lost, not returned). -/
theorem C3_month_abort (texts : List (List Char)) (t line : List Char)
    (caps : RowCaptures)
    (hmem : t ∈ texts)
    (hline : line ∈ pyLines (getSection t pssHeader))
    (hmatch : matchSummary (pyStrip line) = some caps)
    (hval : natOfDigits caps.month = 0 ∨ 12 < natOfDigits caps.month) :
    caps.month ≠ [] ∧ caps.month.all isDigitC = true ∧
    fmt_contract_month caps.year caps.month = none ∧
    normalize caps = none ∧
    parse_pdf_text t = none ∧
    run_pipeline texts = none := by
  obtain ⟨t0, t2, t3, t4, t5, t6, t7, t8, t9, t10, rest, htok, hd0, hn2, hn3, htk, hyr,
    h6, hw7, he8, hg9, hus, hcaps⟩ := matchSummary_tokens hmatch
  have hmonth : caps.month = t6 := by rw [hcaps]
  obtain ⟨h6ne, h6all⟩ := tok_parts (p := isDigitC) h6
  have hm1 : caps.month ≠ [] := by rw [hmonth]; exact h6ne
  have hm2 : caps.month.all isDigitC = true := by rw [hmonth]; exact h6all
  obtain ⟨hfmt, hnorm⟩ := normalize_month_out hm1 hm2 hval
  have hpdf : parse_pdf_text t = none := parseLines_abort hline hmatch hnorm
  exact ⟨hm1, hm2, hfmt, hnorm, hpdf, runGo_none hmem hpdf []⟩

/-- Witness for C3 on the month-13 document. -/
theorem C3_month_abort_witness :
    capsMonth13.month ≠ [] ∧ capsMonth13.month.all isDigitC = true ∧
    fmt_contract_month capsMonth13.year capsMonth13.month = none ∧
    normalize capsMonth13 = none ∧
    parse_pdf_text docMonth13 = none ∧
    run_pipeline [docMonth13] = none :=
  C3_month_abort [docMonth13] docMonth13 rowMonth13 capsMonth13
    (by decide) (by decide) (by decide) (by decide)

/-- **C9**: for two matching lines that are identical except for their
QTY_SHORT token, the captures agree except in `qtyShort` and normalization
produces identical records — the short-quantity capture influences nothing. -/
theorem C9_qty_short_ignored (L1 L2 : List Char) (c1 c2 : RowCaptures)
    (t0 t1 t2 a b t4 t5 t6 t7 t8 t9 t10 : List Char) (rest : List (List Char))
    (h1 : matchSummary (pyStrip L1) = some c1)
    (h2 : matchSummary (pyStrip L2) = some c2)
    (htok1 : tokensOf (pyStrip L1)
      = t0 :: t1 :: t2 :: a :: t4 :: t5 :: t6 :: t7 :: t8 :: t9 :: t10 :: rest)
    (htok2 : tokensOf (pyStrip L2)
      = t0 :: t1 :: t2 :: b :: t4 :: t5 :: t6 :: t7 :: t8 :: t9 :: t10 :: rest) :
    c1.qtyShort = a ∧ c2.qtyShort = b ∧ normalize c1 = normalize c2 := by
  obtain ⟨u0, u2, u3, u4, u5, u6, u7, u8, u9, u10, urest, hutok, _, _, _, _, _, _,
    _, _, _, _, hc1⟩ := matchSummary_tokens h1
  obtain ⟨v0, v2, v3, v4, v5, v6, v7, v8, v9, v10, vrest, hvtok, _, _, _, _, _, _,
    _, _, _, _, hc2⟩ := matchSummary_tokens h2
  rw [htok1] at hutok
  rw [htok2] at hvtok
  simp only [List.cons.injEq] at hutok hvtok
  obtain ⟨q0, q1, q2, q3, q4, q5, q6, q7, q8, q9, q10, qrest⟩ := hutok
  obtain ⟨w0, w1, w2, w3, w4, w5, w6, w7, w8, w9, w10, wrest⟩ := hvtok
  subst q0; subst q2; subst q3; subst q4; subst q5; subst q6; subst q7
  subst q8; subst q9; subst q10
  subst w0; subst w2; subst w3; subst w4; subst w5; subst w6; subst w7
  subst w8; subst w9; subst w10
  refine ⟨?_, ?_, ?_⟩
  · rw [hc1]
  · rw [hc2]
  · rw [hc1, hc2]
    rfl

/-- Witness for C9 on the sample row and its QTY_SHORT-7 variant. -/
theorem C9_qty_short_ignored_witness :
    sampleCaps.qtyShort = "2".data ∧ sampleCapsShort7.qtyShort = "7".data ∧
    normalize sampleCaps = normalize sampleCapsShort7 :=
  C9_qty_short_ignored sampleRow sampleRowShort7 sampleCaps sampleCapsShort7
    "2023-05-10".data "US".data "2".data "2".data "7".data "ZB".data "2023".data
    "5".data "CBOT".data "2023-06-16".data "125.50".data "USD".data
    ["Notes".data, "here".data]
    (by decide) (by decide) (by decide) (by decide)

end ImportFutures
